import Mathlib

/-!
A verification development for the hive syncset controller
(`pkg/controller/syncset/syncset_controller.go`) and the cluster lifecycle
controller (package `clusterdeployment`).

The Go code is shallowly embedded: every stateful controller function
becomes a pure Lean function that returns its new state together with a
log of the externally visible calls it issued (Applier.Apply,
Applier.Patch, dynamic-client deletes, finalizer updates).  Times are
modelled as integers (seconds); the controller's MD5-hex content hash is
modelled as an abstract injected function, exactly as the Go code injects
it through the `hash` field of `ReconcileSyncSet`.

Functions of `pkg/controller/utils` (FindSyncCondition, SetSyncCondition,
HasFinalizer) are not part of the repository snapshot; they are modelled
from the spec where so marked.
-/

namespace Hive

/-- Status of a condition: True / False / Unknown, as in the k8s API. -/
inductive ConditionStatus where
  | ctrue
  | cfalse
  | cunknown
deriving DecidableEq, Repr

/-- The condition types carried on a SyncStatus / SyncSetObjectStatus. -/
inductive SyncConditionType where
  | applySuccess
  | applyFailure
  | deletionFailed
  | unknownObject
deriving DecidableEq, Repr

/-- A typed condition with probe and transition timestamps. -/
structure SyncCondition where
  ctype : SyncConditionType
  status : ConditionStatus
  reason : String
  message : String
  lastProbeTime : Int
  lastTransitionTime : Int
deriving DecidableEq, Repr

/-- Update policies for SetSyncCondition (never / always /
only-on-reason-or-message-change). -/
inductive UpdateConditionCheck where
  | never
  | always
  | ifReasonOrMessageChange
deriving DecidableEq, Repr

/-- Modelled from the spec: `FindSyncCondition` of pkg/controller/utils is
missing from the snapshot; the spec models condition lists as "a small
ordered sequence keyed by Type", so lookup returns the first condition of
the given type. -/
def FindSyncCondition (conds : List SyncCondition) (t : SyncConditionType) :
    Option SyncCondition :=
  conds.find? (fun c => c.ctype == t)

/-- Modelled from the spec: whether an existing condition is rewritten.
A status change always updates; otherwise the update policy decides
(never / always / only-on-reason-or-message-change). -/
def shouldUpdateCondition (oldStatus : ConditionStatus) (oldReason oldMessage : String)
    (newStatus : ConditionStatus) (newReason newMessage : String)
    (u : UpdateConditionCheck) : Bool :=
  oldStatus != newStatus ||
    (match u with
     | .never => false
     | .always => true
     | .ifReasonOrMessageChange => oldReason != newReason || oldMessage != newMessage)

/-- Modelled from the spec: the rewrite of one condition when an update is due;
`LastProbeTime` advances, `LastTransitionTime` advances only on status change. -/
def updateCondition (now : Int) (newStatus : ConditionStatus) (reason message : String)
    (u : UpdateConditionCheck) (c : SyncCondition) : SyncCondition :=
  if shouldUpdateCondition c.status c.reason c.message newStatus reason message u then
    { ctype := c.ctype, status := newStatus, reason := reason, message := message,
      lastProbeTime := now,
      lastTransitionTime := if c.status != newStatus then now else c.lastTransitionTime }
  else c

/-- Modelled from the spec: `SetSyncCondition` of pkg/controller/utils is
missing from the snapshot.  The list is keyed by type: the first condition
of the given type is updated under the update policy, and a missing
condition is appended with both timestamps set to now. -/
def SetSyncCondition (now : Int) (conds : List SyncCondition) (t : SyncConditionType)
    (status : ConditionStatus) (reason message : String)
    (u : UpdateConditionCheck) : List SyncCondition :=
  match conds with
  | [] => [{ ctype := t, status := status, reason := reason, message := message,
             lastProbeTime := now, lastTransitionTime := now }]
  | c :: rest =>
    if c.ctype == t then updateCondition now status reason message u c :: rest
    else c :: SetSyncCondition now rest t status reason message u

/-- Status of the first condition of a type, if present. -/
def condStatus (conds : List SyncCondition) (t : SyncConditionType) :
    Option ConditionStatus :=
  (FindSyncCondition conds t).map (fun c => c.status)

/-- Message of the first condition of a type, if present. -/
def condMessage (conds : List SyncCondition) (t : SyncConditionType) :
    Option String :=
  (FindSyncCondition conds t).map (fun c => c.message)

/-- Per-applied-object record (hivev1.SyncStatus). -/
structure SyncStatus where
  apiVersion : String
  kind : String
  resource : String
  name : String
  namespc : String
  hash : String
  conditions : List SyncCondition
deriving DecidableEq, Repr

/-- Per-(CD, bundle) record (hivev1.SyncSetObjectStatus). -/
structure SyncSetObjectStatus where
  name : String
  resources : List SyncStatus
  patches : List SyncStatus
  conditions : List SyncCondition
deriving DecidableEq, Repr

/-- Reason constants of syncset_controller.go. -/
def unknownObjectFoundReason : String := "UnknownObjectFound"

def unknownObjectNotFoundReason : String := "UnknownObjectNotFound"

def applySucceededReason : String := "ApplySucceeded"

def applyFailedReason : String := "ApplyFailed"

def deletionFailedReason : String := "DeletionFailed"

/-- The fixed 2 hour reapply interval, in seconds (2 * time.Hour). -/
def reapplyInterval : Int := 7200

/-- setUnknownObjectSyncCondition: UnknownObject=False with reason
UnknownObjectNotFound when info gathering succeeded, otherwise True with the
index of the offending resource; update policy is Never. -/
def setUnknownObjectSyncCondition (now : Int) (conds : List SyncCondition)
    (err : Option String) (index : Nat) : List SyncCondition :=
  match err with
  | none =>
    SetSyncCondition now conds .unknownObject .cfalse unknownObjectNotFoundReason
      "Info available for all SyncSet resources" .never
  | some e =>
    SetSyncCondition now conds .unknownObject .ctrue unknownObjectFoundReason
      ("Unable to gather Info for SyncSet resource at index " ++ toString index ++
        " in resources: " ++ e) .never

/-- setApplySyncConditions: on success ApplySuccess=True / ApplyFailure=False
with policy Always; on failure ApplyFailure=True / ApplySuccess=False with
policy IfReasonOrMessageChange and the fixed message "Apply failed";
DeletionFailed is set to False in both cases.  `applyFailed` models whether
the apply returned an error. -/
def setApplySyncConditions (now : Int) (conds : List SyncCondition)
    (applyFailed : Bool) : List SyncCondition :=
  let reason := if applyFailed then applyFailedReason else applySucceededReason
  let message := if applyFailed then "Apply failed" else "Apply successful"
  let successStatus := if applyFailed then ConditionStatus.cfalse else ConditionStatus.ctrue
  let failureStatus := if applyFailed then ConditionStatus.ctrue else ConditionStatus.cfalse
  let u := if applyFailed then UpdateConditionCheck.ifReasonOrMessageChange
           else UpdateConditionCheck.always
  let c1 := SetSyncCondition now conds .applySuccess successStatus reason message u
  let c2 := SetSyncCondition now c1 .applyFailure failureStatus reason message u
  SetSyncCondition now c2 .deletionFailed .cfalse reason message u

/-- setDeletionFailedSyncCondition: a nil error leaves the conditions alone,
otherwise DeletionFailed=True with reason DeletionFailed, policy Always. -/
def setDeletionFailedSyncCondition (now : Int) (conds : List SyncCondition)
    (err : Option String) : List SyncCondition :=
  match err with
  | none => conds
  | some m =>
    SetSyncCondition now conds .deletionFailed .ctrue deletionFailedReason
      ("Failed to delete resource: " ++ m) .always

/-- The result of `Applier.Info` on a raw resource blob. -/
structure Info where
  apiVersion : String
  kind : String
  resource : String
  name : String
  namespc : String
deriving DecidableEq, Repr

/-- One `Applier.Patch` invocation as issued by applySyncSetPatches. -/
structure PatchCall where
  name : String
  namespc : String
  kind : String
  apiVersion : String
  patch : String
  patchType : String
deriving DecidableEq, Repr

/-- Behaviour of the external Applier: `info` parses raw bytes (an error
carries a message), `applyFailed` / `patchFailed` tell whether the
corresponding call returns an error.  Raw bytes are modelled as strings. -/
structure Applier where
  info : String → Except String Info
  applyFailed : String → Bool
  patchFailed : PatchCall → Bool

/-- group/version parsed out of an apiVersion string. -/
structure GroupVersion where
  group : String
  version : String
deriving DecidableEq, Repr

/-- Split a character list at every slash (the helper behind
parseGroupVersion, written out so that it evaluates in the kernel). -/
def splitSlashAux : List Char → List Char → List String
  | [], acc => [String.mk acc.reverse]
  | c :: rest, acc =>
    if c = '/' then String.mk acc.reverse :: splitSlashAux rest []
    else splitSlashAux rest (c :: acc)

/-- schema.ParseGroupVersion: "" and "/" denote the empty group/version, one
slash separates group from version, more than one slash is an error. -/
def parseGroupVersion (gv : String) : Option GroupVersion :=
  match splitSlashAux gv.data [] with
  | [v] => some { group := "", version := v }
  | [g, v] => some { group := g, version := v }
  | _ => none

/-- One dynamic-client delete as issued against the managed cluster. -/
structure DeleteCall where
  group : String
  version : String
  resource : String
  namespc : String
  name : String
deriving DecidableEq, Repr

/-- Outcome of a dynamic-client delete: success, a NotFound error, or any
other error (with its message). -/
inductive DeleteOutcome where
  | ok
  | notFound
  | failed (msg : String)
deriving DecidableEq, Repr

/-- Behaviour of the dynamic client used for deletes. -/
structure DynamicClient where
  delete : DeleteCall → DeleteOutcome

/-- The reconciler with its injected content hash (NewReconciler sets
`r.hash = r.resourceHash`, the MD5-hex of the raw bytes; the hash function
stays abstract here). -/
structure ReconcileSyncSet where
  hash : String → String

/-- hivev1.SyncSetResourceApplyMode: the code treats "" and upsert alike and
everything else (sync) as the deleting mode. -/
inductive SyncSetResourceApplyMode where
  | emptyMode
  | upsert
  | sync
deriving DecidableEq, Repr

/-- hivev1.SyncSetPatchApplyMode: ApplyOnce versus ApplyAlways. -/
inductive SyncSetPatchApplyMode where
  | applyAlways
  | applyOnce
deriving DecidableEq, Repr

/-- hivev1.SyncObjectPatch. -/
structure SyncObjectPatch where
  apiVersion : String
  kind : String
  name : String
  namespc : String
  patch : String
  patchType : String
  applyMode : SyncSetPatchApplyMode
deriving DecidableEq, Repr

/-- hivev1.ResourceDeletionPolicy: delete (default) or orphan. -/
inductive ResourceDeletionPolicy where
  | deletePolicy
  | orphan
deriving DecidableEq, Repr

/-- Whether the first condition of a type exists and has status True. -/
def condIsTrue (conds : List SyncCondition) (t : SyncConditionType) : Bool :=
  match FindSyncCondition conds t with
  | some c => c.status == .ctrue
  | none => false

/-- The four-tuple (name, namespace, apiVersion, kind) match used both in the
resource reapply lookup and in the deletion pass. -/
def matchesStatus (a b : SyncStatus) : Bool :=
  a.name == b.name && a.namespc == b.namespc &&
    a.apiVersion == b.apiVersion && a.kind == b.kind

/-- appendOrUpdateSyncStatus: replace the first entry matching on
(name, namespace, kind), else append. -/
def appendOrUpdateSyncStatus (statusList : List SyncStatus) (syncStatus : SyncStatus) :
    List SyncStatus :=
  match statusList with
  | [] => [syncStatus]
  | ss :: rest =>
    if ss.name == syncStatus.name && ss.namespc == syncStatus.namespc &&
        ss.kind == syncStatus.kind then
      syncStatus :: rest
    else ss :: appendOrUpdateSyncStatus rest syncStatus

/-- appendOrUpdateSyncSetObjectStatus: replace the first entry with the same
bundle name, else append. -/
def appendOrUpdateSyncSetObjectStatus (statusList : List SyncSetObjectStatus)
    (s : SyncSetObjectStatus) : List SyncSetObjectStatus :=
  match statusList with
  | [] => [s]
  | ssos :: rest =>
    if ssos.name == s.name then s :: rest
    else ssos :: appendOrUpdateSyncSetObjectStatus rest s

/-- findSyncSetStatus: the entry recorded for a bundle name, or a fresh empty
record carrying just the name. -/
def findSyncSetStatus (name : String) (statusList : List SyncSetObjectStatus) :
    SyncSetObjectStatus :=
  match statusList.find? (fun ssos => name == ssos.name) with
  | some ssos => ssos
  | none => { name := name, resources := [], patches := [], conditions := [] }

/-- removeSyncSetObjectStatus: drop every entry with the given bundle name. -/
def removeSyncSetObjectStatus (statusList : List SyncSetObjectStatus)
    (syncSetName : String) : List SyncSetObjectStatus :=
  statusList.filter (fun s => s.name != syncSetName)

/-- The info-gathering phase of applySyncSetResources: the infos of all
resources, or the index and message of the first failing `Info` call. -/
def gatherInfos (ap : Applier) : Nat → List String → Except (Nat × String) (List Info)
  | _, [] => .ok []
  | i, raw :: rest =>
    match ap.info raw with
    | .error msg => .error (i, msg)
    | .ok inf =>
      match gatherInfos ap (i + 1) rest with
      | .error e => .error e
      | .ok l => .ok (inf :: l)

/-- The candidate SyncStatus built for a resource from its info and hash. -/
def resourceCandidate (r : ReconcileSyncSet) (raw : String) (inf : Info) : SyncStatus :=
  { apiVersion := inf.apiVersion, kind := inf.kind, resource := inf.resource,
    name := inf.name, namespc := inf.namespc, hash := r.hash raw, conditions := [] }

/-- The found / different / shouldReApply decision of applySyncSetResources,
taken against the first prior entry matching on the four-tuple: reapply when
not found, or the hash differs, or ApplyFailure is True, or an ApplySuccess
condition is more than reapplyInterval old. -/
def resourceShouldApply (now : Int) (matched : Option SyncStatus) (newHash : String) :
    Bool :=
  match matched with
  | none => true
  | some rss =>
    if rss.hash != newHash then true
    else if condIsTrue rss.conditions .applyFailure then true
    else
      match FindSyncCondition rss.conditions .applySuccess with
      | some sc => decide (now - sc.lastProbeTime > reapplyInterval)
      | none => false

/-- The main loop of applySyncSetResources over the (raw, info) pairs:
returns the rebuilt status list, the raw bytes passed to `Applier.Apply` in
order, and whether an apply error stopped the loop early. -/
def applyResourcesLoop (r : ReconcileSyncSet) (ap : Applier) (now : Int)
    (prior : List SyncStatus) : List (String × Info) → List SyncStatus × List String × Bool
  | [] => ([], [], false)
  | (raw, inf) :: rest =>
    let cand := resourceCandidate r raw inf
    let matched := prior.find? (fun rss => matchesStatus rss cand)
    let priorConds := match matched with
      | some m => m.conditions
      | none => []
    if resourceShouldApply now matched cand.hash then
      let e := ap.applyFailed raw
      let cand := { cand with conditions := setApplySyncConditions now priorConds e }
      if e then ([cand], [raw], true)
      else
        let (l, a, er) := applyResourcesLoop r ap now prior rest
        (cand :: l, raw :: a, er)
    else
      let cand := { cand with conditions := priorConds }
      let (l, a, er) := applyResourcesLoop r ap now prior rest
      (cand :: l, a, er)

/-- The prior status entries with no four-tuple match in the new list: the
candidates the deletion pass queues up. -/
def deletionCandidates (existing newList : List SyncStatus) : List SyncStatus :=
  existing.filter (fun e => !(newList.any (fun n => matchesStatus e n)))

/-- The delete loop of reconcileDeletedSyncSetResources over the candidates:
returns the candidate list as the in-place condition writes leave it (a
non-NotFound delete error stamps DeletionFailed on the candidate), the delete
calls issued, and the error of the first unparsable apiVersion, which stops
the loop.  Note the Go caller never reads the mutated candidates: its
existingStatusList slice is dropped when the function returns. -/
def runDeletes (now : Int) (dyn : DynamicClient) :
    List SyncStatus → List SyncStatus × List DeleteCall × Option String
  | [] => ([], [], none)
  | d :: rest =>
    match parseGroupVersion d.apiVersion with
    | none => (d :: rest, [], some ("unable to parse group version " ++ d.apiVersion))
    | some gv =>
      let call : DeleteCall :=
        { group := gv.group, version := gv.version, resource := d.resource,
          namespc := d.namespc, name := d.name }
      let d2 := match dyn.delete call with
        | .failed msg =>
          { d with conditions := setDeletionFailedSyncCondition now d.conditions (some msg) }
        | _ => d
      let (ds, cs, e) := runDeletes now dyn rest
      (d2 :: ds, call :: cs, e)

/-- reconcileDeletedSyncSetResources: upsert (or empty) mode returns the new
list with no deletes; sync mode collects the stale candidates, preserves them
when an apply error occurred, and otherwise deletes each one, returning the
new list (a parse error returns nil and the error).  The second component is
the list of delete calls issued. -/
def reconcileDeletedSyncSetResources (now : Int) (dyn : DynamicClient)
    (applyMode : SyncSetResourceApplyMode) (existing newList : List SyncStatus)
    (applyErr : Bool) : List SyncStatus × List DeleteCall × Option String :=
  if applyMode == .emptyMode || applyMode == .upsert then (newList, [], none)
  else
    let candidates := deletionCandidates existing newList
    if applyErr then (newList ++ candidates, [], none)
    else
      let (_, calls, e) := runDeletes now dyn candidates
      match e with
      | some msg => ([], calls, some msg)
      | none => (newList, calls, none)

/-- The outcome of applySyncSetResources on one bundle. -/
structure ApplyResourcesResult where
  status : SyncSetObjectStatus
  applied : List String
  deletes : List DeleteCall
  err : Option String
deriving DecidableEq, Repr

/-- applySyncSetResources: gather infos (an info error records UnknownObject
and aborts), run the apply loop, then the deletion pass; the status is
mutated accordingly and the first error (info, apply or delete-parse) is
returned. -/
def applySyncSetResources (r : ReconcileSyncSet) (ap : Applier) (dyn : DynamicClient)
    (now : Int) (applyMode : SyncSetResourceApplyMode) (ssResources : List String)
    (s : SyncSetObjectStatus) : ApplyResourcesResult :=
  match gatherInfos ap 0 ssResources with
  | .error (i, msg) =>
    { status := { s with conditions := setUnknownObjectSyncCondition now s.conditions (some msg) i },
      applied := [], deletes := [], err := some msg }
  | .ok infos =>
    let s1 := { s with conditions := setUnknownObjectSyncCondition now s.conditions none 0 }
    let (newList, applied, applyErr) :=
      applyResourcesLoop r ap now s1.resources (ssResources.zip infos)
    let (resList, deletes, delErr) :=
      reconcileDeletedSyncSetResources now dyn applyMode s1.resources newList applyErr
    { status := { s1 with resources := resList }, applied := applied, deletes := deletes,
      err := if applyErr then some "apply error" else delErr }

/-- The candidate SyncStatus built for a patch entry (the Resource field is
left empty; the hash is over the patch body). -/
def patchCandidate (r : ReconcileSyncSet) (p : SyncObjectPatch) : SyncStatus :=
  { apiVersion := p.apiVersion, kind := p.kind, resource := "", name := p.name,
    namespc := p.namespc, hash := r.hash p.patch, conditions := [] }

/-- The patch lookup key: (name, namespace, kind) only; apiVersion is carried
in the status but never compared. -/
def matchesPatchStatus (pss cand : SyncStatus) : Bool :=
  pss.name == cand.name && pss.namespc == cand.namespc && pss.kind == cand.kind

/-- The found / different / shouldReApply decision of applySyncSetPatches:
reapply when not found, or the hash differs, or ApplyFailure is True, or
(the patch apply mode is not ApplyOnce and an ApplySuccess condition is more
than reapplyInterval old). -/
def patchShouldApply (now : Int) (applyMode : SyncSetPatchApplyMode)
    (matched : Option SyncStatus) (newHash : String) : Bool :=
  match matched with
  | none => true
  | some pss =>
    if pss.hash != newHash then true
    else if condIsTrue pss.conditions .applyFailure then true
    else if applyMode != .applyOnce then
      match FindSyncCondition pss.conditions .applySuccess with
      | some sc => decide (now - sc.lastProbeTime > reapplyInterval)
      | none => false
    else false

/-- The PatchCall issued for a patch entry. -/
def patchCallOf (p : SyncObjectPatch) : PatchCall :=
  { name := p.name, namespc := p.namespc, kind := p.kind, apiVersion := p.apiVersion,
    patch := p.patch, patchType := p.patchType }

/-- applySyncSetPatches: for each patch decide reapply against the prior patch
statuses; an invoked patch updates the status list and a patch error returns
immediately.  Returns the updated patch status list, the Patch calls in
order, and whether a patch error stopped the loop. -/
def applyPatchesLoop (r : ReconcileSyncSet) (ap : Applier) (now : Int) :
    List SyncObjectPatch → List SyncStatus → List SyncStatus × List PatchCall × Bool
  | [], patches => (patches, [], false)
  | p :: rest, patches =>
    let cand := patchCandidate r p
    let matched := patches.find? (fun pss => matchesPatchStatus pss cand)
    let priorConds := match matched with
      | some m => m.conditions
      | none => []
    if patchShouldApply now p.applyMode matched cand.hash then
      let call := patchCallOf p
      let e := ap.patchFailed call
      let cand := { cand with conditions := setApplySyncConditions now priorConds e }
      let patches2 := appendOrUpdateSyncStatus patches cand
      if e then (patches2, [call], true)
      else
        let (ps, cs, er) := applyPatchesLoop r ap now rest patches2
        (ps, call :: cs, er)
    else
      applyPatchesLoop r ap now rest patches

/-- applySyncSetPatches at the bundle level: runs the loop over
`syncSetStatus.Patches` and reports the first patch error. -/
def applySyncSetPatches (r : ReconcileSyncSet) (ap : Applier) (now : Int)
    (ssPatches : List SyncObjectPatch) (s : SyncSetObjectStatus) :
    SyncSetObjectStatus × List PatchCall × Option String :=
  let (ps, cs, er) := applyPatchesLoop r ap now ssPatches s.patches
  ({ s with patches := ps }, cs, if er then some "patch error" else none)

/-- deleteSyncSetResources: iterate the recorded resource statuses of the
bundle, delete each on the managed cluster; delete errors (NotFound or not)
are only logged and no condition is recorded; an unparsable recorded
apiVersion is the only error return and stops the loop. -/
def deleteSyncSetResources (dyn : DynamicClient) :
    List SyncStatus → List DeleteCall × Option String
  | [] => ([], none)
  | rs :: rest =>
    match parseGroupVersion rs.apiVersion with
    | none => ([], some ("unable to parse group version " ++ rs.apiVersion))
    | some gv =>
      let call : DeleteCall :=
        { group := gv.group, version := gv.version, resource := rs.resource,
          namespc := rs.namespc, name := rs.name }
      let _ := dyn.delete call
      let (cs, e) := deleteSyncSetResources dyn rest
      (call :: cs, e)

/-- hivev1.FinalizerSyncSetCleanup. -/
def finalizerSyncSetCleanup : String := "hive.openshift.io/syncset-cleanup"

/-- hivev1.FinalizerDeprovision. -/
def finalizerDeprovision : String := "hive.openshift.io/deprovision"

/-- HasFinalizer: whether the finalizer string is among the object's
finalizers (from the source of package clusterdeployment; the
controllerutils version used by the syncset controller behaves the same). -/
def HasFinalizer (finalizers : List String) (finalizer : String) : Bool :=
  finalizers.any (fun f => f == finalizer)

/-- A SyncSet or SelectorSyncSet bundle as the reconcile loop consumes it. -/
structure SyncSetObj where
  name : String
  hasDeletionTimestamp : Bool
  finalizers : List String
  resourceApplyMode : SyncSetResourceApplyMode
  resources : List String
  patches : List SyncObjectPatch
  resourceDeletionPolicy : ResourceDeletionPolicy
deriving DecidableEq, Repr

/-- ClusterDeployment status as the syncset controller reads and writes it. -/
structure CDStatus where
  installed : Bool
  syncSetStatus : List SyncSetObjectStatus
  selectorSyncSetStatus : List SyncSetObjectStatus
deriving DecidableEq, Repr

/-- The externally visible calls of one reconcile step: Apply calls (raw
bytes), Patch calls, dynamic-client deletes, bundle objects updated
(finalizer writes and patch-type migrations, by name), and the first error. -/
structure StepLog where
  applied : List String
  patched : List PatchCall
  deletes : List DeleteCall
  bundleUpdates : List String
  addedFin : Bool
  removedFin : Bool
  err : Option String
deriving DecidableEq, Repr

/-- The empty log. -/
def StepLog.empty : StepLog :=
  { applied := [], patched := [], deletes := [], bundleUpdates := [],
    addedFin := false, removedFin := false, err := none }

/-- Concatenation of two step logs; the first recorded error wins. -/
def StepLog.append (a b : StepLog) : StepLog :=
  { applied := a.applied ++ b.applied, patched := a.patched ++ b.patched,
    deletes := a.deletes ++ b.deletes, bundleUpdates := a.bundleUpdates ++ b.bundleUpdates,
    addedFin := a.addedFin || b.addedFin, removedFin := a.removedFin || b.removedFin,
    err := match a.err with
      | some e => some e
      | none => b.err }

/-- The environment a reconcile pass runs in: the reconciler (hash), the
applier and dynamic client built for the target cluster, and the time. -/
structure ReconcileEnv where
  r : ReconcileSyncSet
  ap : Applier
  dyn : DynamicClient
  now : Int

/-- The legacy-to-new patch type map (oldPatchTypes); the keys are the k8s
constants types.JSONPatchType / MergePatchType / StrategicMergePatchType. -/
def oldPatchTypes : List (String × String) :=
  [("application/json-patch+json", "json"),
   ("application/merge-patch+json", "merge"),
   ("application/strategic-merge-patch+json", "strategic")]

/-- Lookup into oldPatchTypes. -/
def migratePatchType (t : String) : Option String :=
  (oldPatchTypes.find? (fun kv => kv.fst == t)).map (fun kv => kv.snd)

/-- The in-place rewrite of one patch entry. -/
def migratePatch (p : SyncObjectPatch) : SyncObjectPatch :=
  match migratePatchType p.patchType with
  | some newType => { p with patchType := newType }
  | none => p

/-- Whether a bundle contains at least one legacy patch-type spelling. -/
def bundleNeedsMigration (b : SyncSetObj) : Bool :=
  b.patches.any (fun p => (migratePatchType p.patchType).isSome)

/-- migrateSyncSetPatchTypes / migrateSelectorSyncSetPatchTypes: bundles with
no patches are skipped; legacy patch types are rewritten in place and one
update is issued per bundle that contained a legacy spelling.  An update
error stops the loop (the remaining bundles stay untouched); `updateFailed`
models the update outcomes.  Returns the bundle list as mutated, the names of
the bundles updated, and the first update error. -/
def migrateSyncSetPatchTypes (updateFailed : String → Bool) :
    List SyncSetObj → List SyncSetObj × List String × Option String
  | [] => ([], [], none)
  | b :: rest =>
    if b.patches.isEmpty then
      let (bs, ws, e) := migrateSyncSetPatchTypes updateFailed rest
      (b :: bs, ws, e)
    else
      let migrated := bundleNeedsMigration b
      let b2 := { b with patches := b.patches.map migratePatch }
      if migrated then
        if updateFailed b2.name then (b2 :: rest, [b2.name], some "update error")
        else
          let (bs, ws, e) := migrateSyncSetPatchTypes updateFailed rest
          (b2 :: bs, b2.name :: ws, e)
      else
        let (bs, ws, e) := migrateSyncSetPatchTypes updateFailed rest
        (b2 :: bs, ws, e)

/-- The apply half of the per-bundle loop body shared by SyncSets and
SelectorSyncSets: apply resources, then (only when they succeeded) patches,
against the bundle's recorded SyncSetObjectStatus. -/
def applyBundle (env : ReconcileEnv) (b : SyncSetObj) (entry : SyncSetObjectStatus) :
    SyncSetObjectStatus × StepLog :=
  let res := applySyncSetResources env.r env.ap env.dyn env.now b.resourceApplyMode
    b.resources entry
  match res.err with
  | some e =>
    (res.status,
     { StepLog.empty with applied := res.applied, deletes := res.deletes, err := some e })
  | none =>
    let (s2, calls, perr) := applySyncSetPatches env.r env.ap env.now b.patches res.status
    (s2,
     { StepLog.empty with
        applied := res.applied, deletes := res.deletes, patched := calls, err := perr })

/-- One iteration of the SyncSet loop of Reconcile (lines 268-323): the
cleanup branch for a deleted bundle carrying the cleanup finalizer, the
add-finalizer branch, or the apply branch; acts on cd.Status.SyncSetStatus. -/
def processSyncSet (env : ReconcileEnv) (b : SyncSetObj)
    (statusList : List SyncSetObjectStatus) : List SyncSetObjectStatus × StepLog :=
  if b.hasDeletionTimestamp && HasFinalizer b.finalizers finalizerSyncSetCleanup then
    let (dcalls, derr) :=
      if b.resourceDeletionPolicy != .orphan then
        deleteSyncSetResources env.dyn (findSyncSetStatus b.name statusList).resources
      else ([], none)
    let _ := derr
    (removeSyncSetObjectStatus statusList b.name,
     { StepLog.empty with
        deletes := dcalls, bundleUpdates := [b.name], removedFin := true })
  else if !(HasFinalizer b.finalizers finalizerSyncSetCleanup) then
    (statusList,
     { StepLog.empty with bundleUpdates := [b.name], addedFin := true })
  else
    let entry := findSyncSetStatus b.name statusList
    let (entry2, log) := applyBundle env b entry
    (appendOrUpdateSyncSetObjectStatus statusList entry2, log)

/-- One iteration of the SelectorSyncSet loop of Reconcile (lines 325-380).
The cleanup branch reads the recorded statuses from — and drops the bundle's
entry from — cd.Status.SyncSetStatus, while the apply branch reads and
writes cd.Status.SelectorSyncSetStatus. -/
def processSelectorSyncSet (env : ReconcileEnv) (b : SyncSetObj) (st : CDStatus) :
    CDStatus × StepLog :=
  if b.hasDeletionTimestamp && HasFinalizer b.finalizers finalizerSyncSetCleanup then
    let (dcalls, derr) :=
      if b.resourceDeletionPolicy != .orphan then
        deleteSyncSetResources env.dyn (findSyncSetStatus b.name st.syncSetStatus).resources
      else ([], none)
    let _ := derr
    ({ st with syncSetStatus := removeSyncSetObjectStatus st.syncSetStatus b.name },
     { StepLog.empty with
        deletes := dcalls, bundleUpdates := [b.name], removedFin := true })
  else if !(HasFinalizer b.finalizers finalizerSyncSetCleanup) then
    (st, { StepLog.empty with bundleUpdates := [b.name], addedFin := true })
  else
    let entry := findSyncSetStatus b.name st.selectorSyncSetStatus
    let (entry2, log) := applyBundle env b entry
    ({ st with selectorSyncSetStatus :=
        appendOrUpdateSyncSetObjectStatus st.selectorSyncSetStatus entry2 }, log)

/-- Fold of processSyncSet over the SyncSet list. -/
def processSyncSets (env : ReconcileEnv) :
    List SyncSetObj → List SyncSetObjectStatus → List SyncSetObjectStatus × StepLog
  | [], statusList => (statusList, StepLog.empty)
  | b :: rest, statusList =>
    let (l1, g1) := processSyncSet env b statusList
    let (l2, g2) := processSyncSets env rest l1
    (l2, g1.append g2)

/-- Fold of processSelectorSyncSet over the SelectorSyncSet list. -/
def processSelectorSyncSets (env : ReconcileEnv) :
    List SyncSetObj → CDStatus → CDStatus × StepLog
  | [], st => (st, StepLog.empty)
  | b :: rest, st =>
    let (s1, g1) := processSelectorSyncSet env b st
    let (s2, g2) := processSelectorSyncSets env rest s1
    (s2, g1.append g2)

/-- updateClusterDeploymentStatus: a status write is issued exactly when the
mutated status differs from the original read (reflect.DeepEqual). -/
def updateClusterDeploymentStatus (cdStatus origStatus : CDStatus) : Bool :=
  cdStatus != origStatus

/-- The syncset Reconcile pass from the migration step on (lines 237-390):
migrate patch types on both bundle lists (migration errors are only logged),
run the SyncSet loop over cd.Status.SyncSetStatus, then the SelectorSyncSet
loop, and report whether the final status-write comparison found a change.
The kubeconfig and client construction are summarized by `env`.  Returns the
mutated status, the combined call log, and the status-write flag. -/
def reconcileSyncSetsModel (env : ReconcileEnv) (updateFailed : String → Bool)
    (syncSets selectorSyncSets : List SyncSetObj) (origStatus : CDStatus) :
    CDStatus × StepLog × Bool :=
  let (ss2, w1, _e1) := migrateSyncSetPatchTypes updateFailed syncSets
  let (sss2, w2, _e2) := migrateSyncSetPatchTypes updateFailed selectorSyncSets
  let (l1, g1) := processSyncSets env ss2 origStatus.syncSetStatus
  let st1 := { origStatus with syncSetStatus := l1 }
  let (st2, g2) := processSelectorSyncSets env sss2 st1
  let log := { (g1.append g2) with
    bundleUpdates := w1 ++ w2 ++ (g1.append g2).bundleUpdates }
  (st2, log, updateClusterDeploymentStatus st2 origStatus)

namespace Lifecycle

/-- kbatch.JobConditionType: Complete or Failed. -/
inductive JobConditionType where
  | jobComplete
  | jobFailed
deriving DecidableEq, Repr

/-- A condition on a batch job. -/
structure JobCondition where
  ctype : JobConditionType
  status : ConditionStatus
deriving DecidableEq, Repr

/-- A batch job as the lifecycle reconciler observes it. -/
structure Job where
  name : String
  conditions : List JobCondition
deriving DecidableEq, Repr

/-- getJobConditionStatus: the status of the condition in the job, or False
when the job carries no such condition. -/
def getJobConditionStatus (job : Job) (t : JobConditionType) : ConditionStatus :=
  match job.conditions.find? (fun c => c.ctype == t) with
  | some c => c.status
  | none => .cfalse

/-- isSuccessful: the JobComplete condition is True. -/
def isSuccessful (job : Job) : Bool :=
  getJobConditionStatus job .jobComplete == .ctrue

/-- isFailed: the JobFailed condition is True. -/
def isFailed (job : Job) : Bool :=
  getJobConditionStatus job .jobFailed == .ctrue

/-- A ClusterDeployment as the lifecycle reconciler reads it. -/
structure ClusterDeployment where
  name : String
  hasDeletionTimestamp : Bool
  finalizers : List String
  statusInstalled : Bool
deriving DecidableEq, Repr

/-- Outcome of a platform Get: not found, a read error, or the object. -/
inductive GetOutcome (α : Type) where
  | notFound
  | getError (msg : String)
  | found (v : α)
deriving DecidableEq, Repr

/-- The platform reads and write outcomes one lifecycle reconcile observes.
Creates are modelled by whether they fail.  yaml marshalling of the install
config and owner-reference stamping are modelled as always succeeding. -/
structure LifecycleEnv where
  getCD : GetOutcome ClusterDeployment
  getConfigMap : GetOutcome Unit
  getInstallJob : GetOutcome Job
  getUninstallJob : GetOutcome Job
  createConfigMapFailed : Bool
  createInstallJobFailed : Bool
  createUninstallJobFailed : Bool

/-- What one lifecycle reconcile did. -/
structure LifecycleResult where
  addedDeprovisionFinalizer : Bool
  removedDeprovisionFinalizer : Bool
  createdConfigMap : Bool
  createdInstallJob : Bool
  createdUninstallJob : Bool
  statusInstalledWritten : Option Bool
  err : Option String
deriving DecidableEq, Repr

/-- The all-false result. -/
def LifecycleResult.base : LifecycleResult :=
  { addedDeprovisionFinalizer := false, removedDeprovisionFinalizer := false,
    createdConfigMap := false, createdInstallJob := false,
    createdUninstallJob := false, statusInstalledWritten := none, err := none }

/-- syncDeletedClusterDeployment: ensure the uninstall job exists (creating it
when absent leaves the in-memory job at its zero value, which never counts as
complete), and remove the deprovision finalizer exactly when the observed job
has JobComplete == True. -/
def syncDeletedClusterDeployment (env : LifecycleEnv) : LifecycleResult :=
  match env.getUninstallJob with
  | .getError m => { LifecycleResult.base with err := some m }
  | .notFound =>
    if env.createUninstallJobFailed then
      { LifecycleResult.base with err := some "error creating uninstall job" }
    else if isSuccessful { name := "", conditions := [] } then
      { LifecycleResult.base with
         createdUninstallJob := true, removedDeprovisionFinalizer := true }
    else { LifecycleResult.base with createdUninstallJob := true }
  | .found job =>
    if isSuccessful job then
      { LifecycleResult.base with removedDeprovisionFinalizer := true }
    else LifecycleResult.base

/-- The install path of Reconcile past the finalizer gate: ensure the config
map and the install job exist, and when the job already exists set
Status.Installed from its JobComplete condition; the status is written back
when it changed. -/
def syncInstallPath (env : LifecycleEnv) (cd : ClusterDeployment) : LifecycleResult :=
  let afterCfg : Option LifecycleResult :=
    match env.getConfigMap with
    | .notFound =>
      if env.createConfigMapFailed then
        some { LifecycleResult.base with err := some "error creating config map" }
      else none
    | .getError m => some { LifecycleResult.base with err := some m }
    | .found _ => none
  match afterCfg with
  | some r => r
  | none =>
    let createdCfg := env.getConfigMap == .notFound
    match env.getInstallJob with
    | .notFound =>
      if env.createInstallJobFailed then
        { LifecycleResult.base with
           createdConfigMap := createdCfg, err := some "error creating job" }
      else { LifecycleResult.base with
              createdConfigMap := createdCfg, createdInstallJob := true }
    | .getError m =>
      { LifecycleResult.base with createdConfigMap := createdCfg, err := some m }
    | .found job =>
      let installed := isSuccessful job
      { LifecycleResult.base with
         createdConfigMap := createdCfg,
         statusInstalledWritten :=
           if installed != cd.statusInstalled then some installed else none }

/-- The lifecycle Reconcile: read the CD; a deleted CD without the
deprovision finalizer is ignored, a deleted CD with it enters
syncDeletedClusterDeployment, an undeleted CD without the finalizer gets it
added, and otherwise the install path runs. -/
def reconcileClusterDeployment (env : LifecycleEnv) : LifecycleResult :=
  match env.getCD with
  | .notFound => LifecycleResult.base
  | .getError m => { LifecycleResult.base with err := some m }
  | .found cd =>
    if cd.hasDeletionTimestamp then
      if !(HasFinalizer cd.finalizers finalizerDeprovision) then LifecycleResult.base
      else syncDeletedClusterDeployment env
    else if !(HasFinalizer cd.finalizers finalizerDeprovision) then
      { LifecycleResult.base with addedDeprovisionFinalizer := true }
    else syncInstallPath env cd

/-- The claim's characterization of deprovision-finalizer removal, written
from the spec: the CD was read, is being deleted, still carries the
deprovision finalizer, and the uninstall job was found with its JobComplete
condition True (a job with no JobComplete condition, in particular one only
just created, does not count). -/
def removalSpec (env : LifecycleEnv) : Bool :=
  match env.getCD with
  | .found cd =>
    cd.hasDeletionTimestamp && HasFinalizer cd.finalizers finalizerDeprovision &&
      (match env.getUninstallJob with
       | .found job => getJobConditionStatus job .jobComplete == .ctrue
       | _ => false)
  | _ => false

end Lifecycle

/-- A bundle after the patch-type rewrite of the migration pass. -/
def migratedBundle (b : SyncSetObj) : SyncSetObj :=
  { b with patches := b.patches.map migratePatch }

/-- The delete call the deletion pass issues for a recorded status entry
whose apiVersion parses (group/version from parseGroupVersion, resource
plural, namespace and name from the record). -/
def deleteCallOf (d : SyncStatus) : DeleteCall :=
  let gv := (parseGroupVersion d.apiVersion).getD { group := "", version := "" }
  { group := gv.group, version := gv.version, resource := d.resource,
    namespc := d.namespc, name := d.name }

/-! Concrete fixtures used by witnesses and counterexamples. -/

/-- A reconciler whose content hash is the identity on the raw bytes (the
hash function is injected in the source; only equality of hashes matters). -/
def idHashReconciler : ReconcileSyncSet := { hash := fun s => s }

/-- An applier whose Info parses every blob as a ConfigMap named by its raw
bytes and whose Apply and Patch always succeed. -/
def okApplier : Applier :=
  { info := fun raw =>
      .ok { apiVersion := "v1", kind := "ConfigMap", resource := "configmaps",
            name := raw, namespc := "ns" },
    applyFailed := fun _ => false,
    patchFailed := fun _ => false }

/-- okApplier except that Apply fails on the raw bytes "r1". -/
def failR1Applier : Applier :=
  { okApplier with applyFailed := fun raw => raw == "r1" }

/-- A dynamic client whose deletes all succeed. -/
def okDyn : DynamicClient := { delete := fun _ => .ok }

/-- A dynamic client whose deletes all fail with a non-NotFound error. -/
def failDyn : DynamicClient := { delete := fun _ => .failed "boom" }

/-- The base reconcile environment of the fixtures. -/
def baseEnv : ReconcileEnv :=
  { r := idHashReconciler, ap := okApplier, dyn := okDyn, now := 0 }

/-- A recorded resource status used as a stale deletion candidate. -/
def cexStatusB : SyncStatus :=
  { apiVersion := "v1", kind := "ConfigMap", resource := "configmaps",
    name := "b", namespc := "ns", hash := "h1", conditions := [] }

/-- A bundle being deleted: deletion timestamp set, cleanup finalizer
carried, delete (non-orphan) deletion policy. -/
def cexDeletingBundle : SyncSetObj :=
  { name := "b", hasDeletionTimestamp := true,
    finalizers := [finalizerSyncSetCleanup], resourceApplyMode := .sync,
    resources := [], patches := [], resourceDeletionPolicy := .deletePolicy }

/-- The claim's reapply predicate for a resource, written from the spec: the
prior SyncStatus is located by the four-tuple (apiVersion, kind, namespace,
name); reapply when no entry matches, OR the matched hash differs from the
candidate's content hash, OR the matched entry carries ApplyFailure with
status True, OR it carries an ApplySuccess condition whose LastProbeTime is
more than the fixed 2 hour interval before now. -/
def specResourceReapply (now : Int) (prior : List SyncStatus) (cand : SyncStatus) :
    Bool :=
  match prior.find? (fun rss => matchesStatus rss cand) with
  | none => true
  | some m =>
    (m.hash != cand.hash) || condIsTrue m.conditions .applyFailure ||
      (match FindSyncCondition m.conditions .applySuccess with
       | some sc => decide (now - sc.lastProbeTime > reapplyInterval)
       | none => false)

/-- The amended claim's Apply sequence for a bundle's resources: the raw
bytes of exactly the resources whose reapply predicate holds, in declaration
order, cut off after the first resource whose apply fails. -/
def specAppliedResources (r : ReconcileSyncSet) (ap : Applier) (now : Int)
    (prior : List SyncStatus) : List (String × Info) → List String
  | [] => []
  | (raw, inf) :: rest =>
    if specResourceReapply now prior (resourceCandidate r raw inf) then
      raw :: (if ap.applyFailed raw then []
              else specAppliedResources r ap now prior rest)
    else specAppliedResources r ap now prior rest

/-- The claim's reapply predicate for a patch, written from the spec: the
prior patch SyncStatus is located by (name, namespace, kind) only; reapply
when no entry matches, OR the hash of the patch body differs, OR the matched
entry carries ApplyFailure with status True, OR (the patch apply mode is not
ApplyOnce AND an ApplySuccess condition is more than the fixed 2 hour
interval old). -/
def specPatchReapply (now : Int) (applyMode : SyncSetPatchApplyMode)
    (patches : List SyncStatus) (cand : SyncStatus) : Bool :=
  match patches.find? (fun pss => matchesPatchStatus pss cand) with
  | none => true
  | some m =>
    (m.hash != cand.hash) || condIsTrue m.conditions .applyFailure ||
      ((applyMode != .applyOnce) &&
        (match FindSyncCondition m.conditions .applySuccess with
         | some sc => decide (now - sc.lastProbeTime > reapplyInterval)
         | none => false))

/-- The claim's Patch sequence for a bundle: each patch whose reapply
predicate holds is invoked in order, the status entry is rewritten, and the
first failing patch ends the sequence. -/
def specPatchCalls (r : ReconcileSyncSet) (ap : Applier) (now : Int) :
    List SyncObjectPatch → List SyncStatus → List PatchCall
  | [], _ => []
  | p :: rest, patches =>
    let cand := patchCandidate r p
    if specPatchReapply now p.applyMode patches cand then
      let call := patchCallOf p
      if ap.patchFailed call then [call]
      else
        let priorConds := match patches.find? (fun pss => matchesPatchStatus pss cand) with
          | some m => m.conditions
          | none => []
        let cand2 := { cand with conditions := setApplySyncConditions now priorConds false }
        call :: specPatchCalls r ap now rest (appendOrUpdateSyncStatus patches cand2)
    else specPatchCalls r ap now rest patches

/-- C5 failing input: the selector bundle's recorded entry sits, as the apply
path records it, in SelectorSyncSetStatus; SyncSetStatus is empty. -/
def cexSelectorCD : CDStatus :=
  { installed := true, syncSetStatus := [],
    selectorSyncSetStatus :=
      [{ name := "b", resources := [cexStatusB], patches := [], conditions := [] }] }

/-- The same recorded entry placed instead in SyncSetStatus: the list the
selector cleanup branch actually consults. -/
def cexSwappedCD : CDStatus :=
  { installed := true,
    syncSetStatus :=
      [{ name := "b", resources := [cexStatusB], patches := [], conditions := [] }],
    selectorSyncSetStatus := [] }

/-- A SyncStatus with its conditions cleared: the part the apply loop
rebuilds from the resource's info and hash alone. -/
def baseOf (m : SyncStatus) : SyncStatus :=
  { m with conditions := [] }

/-- The four-tuple the resource reapply lookup and the deletion pass match
on. -/
def statusKey (m : SyncStatus) : String × String × String × String :=
  (m.apiVersion, m.kind, m.namespc, m.name)

/-- The triple the patch reapply lookup matches on. -/
def patchKey (m : SyncStatus) : String × String × String :=
  (m.name, m.namespc, m.kind)

/-- The Info an applier parses out of a blob, defaulting when Info errors
(used only under the hypothesis that Info succeeds). -/
def infoOf (ap : Applier) (raw : String) : Info :=
  match ap.info raw with
  | .ok inf => inf
  | .error _ => { apiVersion := "", kind := "", resource := "", name := "", namespc := "" }

/-- Whether a recorded ApplySuccess condition (if any) is within the reapply
interval as of `now`. -/
def successFresh (now : Int) (m : SyncStatus) : Bool :=
  match FindSyncCondition m.conditions .applySuccess with
  | some sc => decide (now - sc.lastProbeTime ≤ reapplyInterval)
  | none => true

/-- The shape a bundle's recorded SyncSetObjectStatus has right after a fully
successful reconcile of that bundle: named after the bundle, its resource
entries are (in order) exactly the candidates rebuilt from the bundle's
current resources, its bundle conditions carry UnknownObject=False, and every
current patch has a recorded entry with the patch body's hash. -/
def EntryProps (r : ReconcileSyncSet) (ap : Applier) (b : SyncSetObj)
    (entry : SyncSetObjectStatus) : Prop :=
  entry.name = b.name ∧
  entry.resources.map baseOf =
    b.resources.map (fun raw => resourceCandidate r raw (infoOf ap raw)) ∧
  condStatus entry.conditions .unknownObject = some .cfalse ∧
  (∀ p ∈ b.patches, ∃ m,
    entry.patches.find? (fun x => matchesPatchStatus x (patchCandidate r p)) = some m ∧
      m.hash = r.hash p.patch)

/-- The standing assumptions on one bundle in the steady-state scenario: not
being deleted, already carrying the cleanup finalizer, and no duplicate
resource four-tuples or patch keys inside the bundle. -/
@[reducible]
def BundleHyps (r : ReconcileSyncSet) (ap : Applier) (b : SyncSetObj) : Prop :=
  b.hasDeletionTimestamp = false ∧
  HasFinalizer b.finalizers finalizerSyncSetCleanup = true ∧
  (b.resources.map (fun raw => statusKey (resourceCandidate r raw (infoOf ap raw)))).Nodup ∧
  (b.patches.map (fun p => patchKey (patchCandidate r p))).Nodup

/-- Every recorded apply on the entry succeeded and none is older than the
reapply interval as of `now`. -/
@[reducible]
def CondsSteady (now : Int) (e : SyncSetObjectStatus) : Prop :=
  ∀ m ∈ e.resources ++ e.patches,
    condIsTrue m.conditions .applyFailure = false ∧ successFresh now m = true

/-- A steady-state fixture bundle: one resource, cleanup finalizer present,
not being deleted. -/
def wBundle : SyncSetObj :=
  { name := "w", hasDeletionTimestamp := false,
    finalizers := [finalizerSyncSetCleanup], resourceApplyMode := .upsert,
    resources := ["r1"], patches := [], resourceDeletionPolicy := .deletePolicy }

/-- An installed CD with no recorded syncset status yet. -/
def emptyCDStatus : CDStatus :=
  { installed := true, syncSetStatus := [], selectorSyncSetStatus := [] }

/-! Helper lemmas about the condition-list utilities. -/

theorem FindSyncCondition_nil (t : SyncConditionType) :
    FindSyncCondition [] t = none := rfl

theorem FindSyncCondition_cons (c : SyncCondition) (rest : List SyncCondition)
    (t : SyncConditionType) :
    FindSyncCondition (c :: rest) t =
      if c.ctype == t then some c else FindSyncCondition rest t := by
  simp only [FindSyncCondition, List.find?]
  rcases h : c.ctype == t <;> simp [h]

theorem SetSyncCondition_cons (now : Int) (c : SyncCondition)
    (rest : List SyncCondition) (t : SyncConditionType) (s : ConditionStatus)
    (r m : String) (u : UpdateConditionCheck) :
    SetSyncCondition now (c :: rest) t s r m u =
      if c.ctype == t then updateCondition now s r m u c :: rest
      else c :: SetSyncCondition now rest t s r m u := rfl

theorem updateCondition_ctype (now : Int) (s : ConditionStatus) (r m : String)
    (u : UpdateConditionCheck) (c : SyncCondition) :
    (updateCondition now s r m u c).ctype = c.ctype := by
  unfold updateCondition
  split <;> rfl

theorem updateCondition_status (now : Int) (s : ConditionStatus) (r m : String)
    (u : UpdateConditionCheck) (c : SyncCondition) :
    (updateCondition now s r m u c).status = s := by
  unfold updateCondition
  by_cases hup : shouldUpdateCondition c.status c.reason c.message s r m u = true
  · simp [hup]
  · simp only [hup, if_neg, Bool.false_eq_true, not_false_iff, if_false]
    simp only [shouldUpdateCondition, Bool.or_eq_true, not_or] at hup
    have := hup.1
    simpa [bne_iff_ne] using Decidable.not_not.mp (by simpa [bne_iff_ne] using this)

theorem updateCondition_message (now : Int) (s : ConditionStatus) (r m : String)
    (u : UpdateConditionCheck) (c : SyncCondition)
    (hu : u = .always ∨ u = .ifReasonOrMessageChange) :
    (updateCondition now s r m u c).message = m := by
  unfold updateCondition
  by_cases hup : shouldUpdateCondition c.status c.reason c.message s r m u = true
  · simp [hup]
  · rcases hu with h1 | h1
    · exfalso
      exact hup (by simp [shouldUpdateCondition, h1])
    · simp only [hup, if_neg, Bool.false_eq_true, not_false_iff, if_false]
      subst h1
      simp only [shouldUpdateCondition, Bool.or_eq_true, not_or] at hup
      have := hup.2
      simp only [Bool.or_eq_true, not_or] at this
      simpa [bne_iff_ne] using Decidable.not_not.mp (by simpa [bne_iff_ne] using this.2)

theorem find_set_other (now : Int) (l : List SyncCondition) (t : SyncConditionType)
    (s : ConditionStatus) (r m : String) (u : UpdateConditionCheck)
    (t' : SyncConditionType) (h : t' ≠ t) :
    FindSyncCondition (SetSyncCondition now l t s r m u) t' = FindSyncCondition l t' := by
  have htb : (t == t') = false := by
    simp only [beq_eq_false_iff_ne, ne_eq]
    exact fun e => h e.symm
  induction l with
  | nil =>
    simp [SetSyncCondition, FindSyncCondition_cons, FindSyncCondition_nil, htb]
  | cons c rest ih =>
    rw [SetSyncCondition_cons]
    rcases hc : c.ctype == t with _ | _
    · simp only [Bool.false_eq_true, if_neg, not_false_iff, if_false]
      rw [FindSyncCondition_cons, FindSyncCondition_cons, ih]
    · simp only [if_pos]
      have hct : c.ctype = t := by simpa [beq_iff_eq] using hc
      rw [FindSyncCondition_cons, FindSyncCondition_cons, updateCondition_ctype, hct, htb]
      simp

theorem condStatus_set_self (now : Int) (l : List SyncCondition) (t : SyncConditionType)
    (s : ConditionStatus) (r m : String) (u : UpdateConditionCheck) :
    condStatus (SetSyncCondition now l t s r m u) t = some s := by
  induction l with
  | nil =>
    simp [SetSyncCondition, condStatus, FindSyncCondition_cons]
  | cons c rest ih =>
    rw [condStatus, SetSyncCondition_cons]
    rcases hc : c.ctype == t with _ | _
    · simp only [Bool.false_eq_true, if_neg, not_false_iff, if_false]
      rw [FindSyncCondition_cons, hc]
      simpa [condStatus] using ih
    · simp only [if_pos]
      rw [FindSyncCondition_cons, updateCondition_ctype, hc]
      simp [updateCondition_status]

theorem condMessage_set_self (now : Int) (l : List SyncCondition) (t : SyncConditionType)
    (s : ConditionStatus) (r m : String) (u : UpdateConditionCheck)
    (hu : u = .always ∨ u = .ifReasonOrMessageChange) :
    condMessage (SetSyncCondition now l t s r m u) t = some m := by
  induction l with
  | nil =>
    simp [SetSyncCondition, condMessage, FindSyncCondition_cons]
  | cons c rest ih =>
    rw [condMessage, SetSyncCondition_cons]
    rcases hc : c.ctype == t with _ | _
    · simp only [Bool.false_eq_true, if_neg, not_false_iff, if_false]
      rw [FindSyncCondition_cons, hc]
      simpa [condMessage] using ih
    · simp only [if_pos]
      rw [FindSyncCondition_cons, updateCondition_ctype, hc]
      simp [updateCondition_message now s r m u c hu]

theorem set_never_noop (now : Int) (l : List SyncCondition) (t : SyncConditionType)
    (s : ConditionStatus) (r m : String) (c : SyncCondition)
    (hfind : FindSyncCondition l t = some c) (hst : c.status = s) :
    SetSyncCondition now l t s r m .never = l := by
  induction l with
  | nil => simp [FindSyncCondition_nil] at hfind
  | cons d rest ih =>
    rw [FindSyncCondition_cons] at hfind
    rw [SetSyncCondition_cons]
    rcases hc : d.ctype == t with _ | _
    · rw [hc] at hfind
      simp only [Bool.false_eq_true, if_neg, not_false_iff, if_false, if_false] at hfind ⊢
      rw [ih hfind]
    · rw [hc] at hfind
      simp only [if_pos, Option.some.injEq] at hfind
      have hds : d.status = s := by rw [hfind]; exact hst
      have hup : shouldUpdateCondition d.status d.reason d.message s r m .never = false := by
        simp [shouldUpdateCondition, bne, hds]
      simp [hc, updateCondition, hup]

/-- C6: after any apply attempt, ApplySuccess and ApplyFailure are never both
True on the same condition list; a successful apply leaves ApplySuccess=True,
ApplyFailure=False and DeletionFailed=False, and a failed apply leaves
ApplyFailure=True, ApplySuccess=False with the fixed message "Apply failed". -/
theorem C6_apply_conditions_exclusive :
    ∀ (now : Int) (conds : List SyncCondition),
      (condStatus (setApplySyncConditions now conds false) .applySuccess = some .ctrue ∧
       condStatus (setApplySyncConditions now conds false) .applyFailure = some .cfalse ∧
       condStatus (setApplySyncConditions now conds false) .deletionFailed = some .cfalse) ∧
      (condStatus (setApplySyncConditions now conds true) .applyFailure = some .ctrue ∧
       condStatus (setApplySyncConditions now conds true) .applySuccess = some .cfalse ∧
       condMessage (setApplySyncConditions now conds true) .applyFailure = some "Apply failed") ∧
      (∀ e : Bool,
        ((condStatus (setApplySyncConditions now conds e) .applySuccess == some .ctrue) &&
          (condStatus (setApplySyncConditions now conds e) .applyFailure == some .ctrue)) = false) := by
  intro now conds
  have hs : ∀ e : Bool, condStatus (setApplySyncConditions now conds e) .applySuccess =
      some (if e then .cfalse else .ctrue) := by
    intro e
    unfold setApplySyncConditions condStatus
    rw [find_set_other _ _ _ _ _ _ _ _ (by simp), find_set_other _ _ _ _ _ _ _ _ (by simp)]
    cases e <;>
      simpa [condStatus] using condStatus_set_self now conds .applySuccess _ _ _ _
  have hf : ∀ e : Bool, condStatus (setApplySyncConditions now conds e) .applyFailure =
      some (if e then .ctrue else .cfalse) := by
    intro e
    unfold setApplySyncConditions condStatus
    rw [find_set_other _ _ _ _ _ _ _ _ (by simp)]
    cases e <;>
      simpa [condStatus] using condStatus_set_self now _ .applyFailure _ _ _ _
  have hd : ∀ e : Bool, condStatus (setApplySyncConditions now conds e) .deletionFailed =
      some .cfalse := by
    intro e
    unfold setApplySyncConditions condStatus
    cases e <;>
      simpa [condStatus] using condStatus_set_self now _ .deletionFailed _ _ _ _
  have hm : condMessage (setApplySyncConditions now conds true) .applyFailure =
      some "Apply failed" := by
    unfold setApplySyncConditions condMessage
    rw [find_set_other _ _ _ _ _ _ _ _ (by simp)]
    simpa [condMessage] using
      condMessage_set_self now _ .applyFailure _ _ "Apply failed" _ (Or.inr rfl)
  refine ⟨⟨by simpa using hs false, by simpa using hf false, hd false⟩,
    ⟨by simpa using hf true, by simpa using hs true, hm⟩, ?_⟩
  intro e
  cases e
  · simp [hf false]
  · simp [hs true]

/-- C7: across every path of the lifecycle reconciler, the deprovision
finalizer is removed if and only if the uninstall job was observed with
JobComplete == True; a job with no JobComplete condition, including one only
created in the same pass, never triggers removal, and no other path removes
the finalizer. -/
theorem C7_deprovision_finalizer_removal_iff :
    ∀ env : Lifecycle.LifecycleEnv,
      (Lifecycle.reconcileClusterDeployment env).removedDeprovisionFinalizer =
        Lifecycle.removalSpec env := by
  intro env
  rcases env with ⟨gcd, gcm, gij, guj, ccf, cif, cuf⟩
  rcases gcd with _ | m | cd
  · rfl
  · rfl
  · unfold Lifecycle.reconcileClusterDeployment Lifecycle.removalSpec
    rcases hdel : cd.hasDeletionTimestamp with _ | _
    · rcases hfin : HasFinalizer cd.finalizers finalizerDeprovision with _ | _
      · simp [hdel, hfin, Lifecycle.LifecycleResult.base]
      · simp only [hdel, hfin, Bool.false_and, Bool.not_true, if_false,
          Bool.false_eq_true, if_neg, not_false_iff]
        unfold Lifecycle.syncInstallPath
        rcases gcm with _ | m | u <;> rcases gij with _ | m2 | j <;>
          rcases ccf with _ | _ <;> rcases cif with _ | _ <;>
          simp [Lifecycle.LifecycleResult.base]
    · rcases hfin : HasFinalizer cd.finalizers finalizerDeprovision with _ | _
      · simp [hdel, hfin, Lifecycle.LifecycleResult.base]
      · simp only [hdel, hfin, Bool.true_and, Bool.not_true, if_true,
          Bool.false_eq_true, if_neg, not_false_iff]
        unfold Lifecycle.syncDeletedClusterDeployment
        rcases guj with _ | m2 | j
        · rcases cuf with _ | _ <;>
            simp [Lifecycle.LifecycleResult.base, Lifecycle.isSuccessful,
              Lifecycle.getJobConditionStatus]
        · simp [Lifecycle.LifecycleResult.base]
        · rcases hs : Lifecycle.isSuccessful j with _ | _ <;>
            simp only [hs, if_pos, Bool.false_eq_true, if_neg, not_false_iff] <;>
            simp only [Lifecycle.isSuccessful] at hs <;>
            simp [Lifecycle.LifecycleResult.base, hs]

/-! Migration lemmas. -/

theorem migratePatchType_target (t n : String) (h : migratePatchType t = some n) :
    n = "json" ∨ n = "merge" ∨ n = "strategic" := by
  simp only [migratePatchType, oldPatchTypes, List.find?] at h
  rcases h1 : ("application/json-patch+json" == t) with _ | _ <;>
    rcases h2 : ("application/merge-patch+json" == t) with _ | _ <;>
      rcases h3 : ("application/strategic-merge-patch+json" == t) with _ | _ <;>
        simp [h1, h2, h3] at h <;> simp [h]

theorem migratePatch_migrated (p : SyncObjectPatch) :
    migratePatchType (migratePatch p).patchType = none := by
  unfold migratePatch
  rcases h : migratePatchType p.patchType with _ | n
  · simpa using h
  · rcases migratePatchType_target _ _ h with h1 | h1 | h1 <;> simp [h1] <;> decide

theorem migratePatch_none (q : SyncObjectPatch) (h : migratePatchType q.patchType = none) :
    migratePatch q = q := by
  unfold migratePatch
  rw [h]

theorem migratePatch_idem (p : SyncObjectPatch) :
    migratePatch (migratePatch p) = migratePatch p :=
  migratePatch_none _ (migratePatch_migrated p)

theorem migratedBundle_idem (b : SyncSetObj) :
    migratedBundle (migratedBundle b) = migratedBundle b := by
  unfold migratedBundle
  simp [Function.comp, migratePatch_idem]

theorem migratedBundle_clean (b : SyncSetObj) :
    bundleNeedsMigration (migratedBundle b) = false := by
  unfold bundleNeedsMigration migratedBundle
  simp only [List.any_map, List.any_eq_false, Function.comp]
  intro p _
  simp [migratePatch_migrated p]

theorem migrate_run (items : List SyncSetObj) :
    migrateSyncSetPatchTypes (fun _ => false) items =
      (items.map migratedBundle,
       (items.filter bundleNeedsMigration).map (fun b => b.name), none) := by
  induction items with
  | nil => rfl
  | cons b rest ih =>
    unfold migrateSyncSetPatchTypes
    rcases he : b.patches.isEmpty with _ | _
    · simp only [Bool.false_eq_true, if_neg, not_false_iff, if_false, ih]
      rcases hm : bundleNeedsMigration b with _ | _
      · simp [List.map_cons, List.filter_cons, hm, migratedBundle]
      · simp [List.map_cons, List.filter_cons, hm, migratedBundle]
    · have hplist : b.patches = [] := List.isEmpty_iff.mp he
      have hmig : bundleNeedsMigration b = false := by
        simp [bundleNeedsMigration, hplist]
      have hb : migratedBundle b = b := by
        unfold migratedBundle
        have hmap : List.map migratePatch b.patches = b.patches := by
          rw [hplist]
          rfl
        rw [hmap]
      simp [he, ih, List.filter_cons, hmig, hb]

/-- C9: the patch-type migration rewrites every legacy patch-type spelling
through oldPatchTypes, issues exactly one update per bundle that contained at
least one legacy spelling (so bundles with no legacy spellings or no patches
are never written), and is idempotent: a second run over the migrated bundles
rewrites nothing and issues no writes. -/
theorem C9_patch_type_migration :
    ∀ items : List SyncSetObj,
      (migrateSyncSetPatchTypes (fun _ => false) items).2.1 =
        (items.filter bundleNeedsMigration).map (fun b => b.name) ∧
      (migrateSyncSetPatchTypes (fun _ => false) items).1 = items.map migratedBundle ∧
      (migrateSyncSetPatchTypes (fun _ => false)
          ((migrateSyncSetPatchTypes (fun _ => false) items).1)).2.1 = [] ∧
      (migrateSyncSetPatchTypes (fun _ => false)
          ((migrateSyncSetPatchTypes (fun _ => false) items).1)).1 =
        (migrateSyncSetPatchTypes (fun _ => false) items).1 := by
  intro items
  have h1 := migrate_run items
  have h2 := migrate_run (items.map migratedBundle)
  have hclean : (items.map migratedBundle).filter bundleNeedsMigration = [] := by
    simp [List.filter_map, Function.comp, migratedBundle_clean]
  have hidem : (items.map migratedBundle).map migratedBundle = items.map migratedBundle := by
    simp [List.map_map, Function.comp, migratedBundle_idem]
  refine ⟨by rw [h1], by rw [h1], ?_, ?_⟩
  · rw [h1]
    simp only [h2, hclean, List.map_nil]
  · rw [h1]
    simp only [h2, hidem]

/-! Deletion-pass lemmas. -/

theorem runDeletes_parse_ok (now : Int) (dyn : DynamicClient) (cands : List SyncStatus)
    (h : ∀ d ∈ cands, (parseGroupVersion d.apiVersion).isSome = true) :
    (runDeletes now dyn cands).2 = (cands.map deleteCallOf, none) := by
  induction cands with
  | nil => rfl
  | cons d rest ih =>
    have hd := h d (List.mem_cons_self d rest)
    rcases hp : parseGroupVersion d.apiVersion with _ | gv
    · rw [hp] at hd
      simp at hd
    · have ih2 := ih (fun x hx => h x (List.mem_cons_of_mem _ hx))
      rcases hrec : runDeletes now dyn rest with ⟨ds, cs, e⟩
      rw [hrec] at ih2
      simp only [runDeletes, hp, hrec]
      simp only at ih2
      rw [List.map_cons]
      have hcall : deleteCallOf d =
          { group := gv.group, version := gv.version, resource := d.resource,
            namespc := d.namespc, name := d.name } := by
        simp [deleteCallOf, hp]
      rw [hcall]
      rw [Prod.mk.injEq] at ih2
      obtain ⟨ihc, ihe⟩ := ih2
      subst ihc
      subst ihe
      rfl

theorem deleteSyncSetResources_err (dyn : DynamicClient) (rs : List SyncStatus)
    (h : ∀ r ∈ rs, (parseGroupVersion r.apiVersion).isSome = true) :
    (deleteSyncSetResources dyn rs).2 = none := by
  induction rs with
  | nil => rfl
  | cons r rest ih =>
    have hr := h r (List.mem_cons_self r rest)
    rcases hp : parseGroupVersion r.apiVersion with _ | gv
    · rw [hp] at hr
      simp at hr
    · have ih2 := ih (fun x hx => h x (List.mem_cons_of_mem _ hx))
      rcases hrec : deleteSyncSetResources dyn rest with ⟨cs, e⟩
      rw [hrec] at ih2
      simp only [deleteSyncSetResources, hp, hrec]
      simpa using ih2

/-- C2: in the deletion pass, upsert or empty apply mode returns exactly the
new status list and issues no deletes; sync mode with a pending apply error
issues no deletes and appends every deletion candidate (the prior entries
with no four-tuple match in the new list) to the returned list; and sync mode
with no apply error issues one delete per candidate and returns the new list
with no error, NotFound outcomes included. -/
theorem C2_deletion_pass (now : Int) (dyn : DynamicClient)
    (existing newList : List SyncStatus) (applyErr : Bool)
    (_hOutcomes : ∀ c : DeleteCall, dyn.delete c = .ok ∨ dyn.delete c = .notFound)
    (hParse : ∀ d ∈ deletionCandidates existing newList,
        (parseGroupVersion d.apiVersion).isSome = true) :
    (∀ mode, mode = SyncSetResourceApplyMode.emptyMode ∨ mode = .upsert →
       reconcileDeletedSyncSetResources now dyn mode existing newList applyErr =
         (newList, [], none)) ∧
    (applyErr = true →
       reconcileDeletedSyncSetResources now dyn .sync existing newList applyErr =
         (newList ++ deletionCandidates existing newList, [], none)) ∧
    (applyErr = false →
       reconcileDeletedSyncSetResources now dyn .sync existing newList applyErr =
         (newList, (deletionCandidates existing newList).map deleteCallOf, none)) := by
  refine ⟨?_, ?_, ?_⟩
  · intro mode hm
    rcases hm with hm | hm <;> subst hm <;> rfl
  · intro he
    subst he
    rfl
  · intro he
    subst he
    have hrun := runDeletes_parse_ok now dyn (deletionCandidates existing newList) hParse
    rcases hrec : runDeletes now dyn (deletionCandidates existing newList) with ⟨ds, cs, e⟩
    rw [hrec] at hrun
    simp only at hrun
    rw [Prod.mk.injEq] at hrun
    obtain ⟨hc, he2⟩ := hrun
    subst hc
    subst he2
    simp only [reconcileDeletedSyncSetResources, hrec]
    rfl

/-- C2 witness: at a concrete input with one stale candidate whose delete
returns NotFound, upsert returns the new list untouched, an apply error
preserves the candidate, and sync mode deletes it and drops it. -/
theorem C2_deletion_pass_witness :
    reconcileDeletedSyncSetResources 0 { delete := fun _ => .notFound } .upsert
        [cexStatusB] [] false = ([], [], none) ∧
    reconcileDeletedSyncSetResources 0 { delete := fun _ => .notFound } .sync
        [cexStatusB] [] true = ([cexStatusB], [], none) ∧
    reconcileDeletedSyncSetResources 0 { delete := fun _ => .notFound } .sync
        [cexStatusB] [] false = ([], [deleteCallOf cexStatusB], none) := by
  have h := C2_deletion_pass 0 { delete := fun _ => .notFound } [cexStatusB] [] false
    (fun c => Or.inr rfl) (by decide)
  have h2 := C2_deletion_pass 0 { delete := fun _ => .notFound } [cexStatusB] [] true
    (fun c => Or.inr rfl) (by decide)
  refine ⟨?_, ?_, ?_⟩
  · have := h.1 .upsert (Or.inr rfl)
    simpa using this
  · have := h2.2.1 rfl
    simpa using this
  · have := h.2.2 rfl
    simpa using this

/-- C3: the code stamps DeletionFailed=True on the candidate inside the
discarded prior list, but the list it returns is newStatusList, so a
candidate whose delete fails with a non-NotFound error is dropped from the
bundle's returned resource status list instead of being retained: at the
failing input the returned list is empty while the condition the claim
expects was computed only on the thrown-away copy. -/
theorem C3_deletion_failure_candidate_dropped :
    reconcileDeletedSyncSetResources 0 failDyn .sync [cexStatusB] [] false =
      ([], [deleteCallOf cexStatusB], none) ∧
    (runDeletes 0 failDyn [cexStatusB]).1 =
      [{ cexStatusB with
          conditions :=
            [{ ctype := .deletionFailed, status := .ctrue,
               reason := deletionFailedReason,
               message := "Failed to delete resource: boom",
               lastProbeTime := 0, lastTransitionTime := 0 }] }] := by
  constructor
  · decide
  · decide

/-- C10: when a bundle has a deletion timestamp, the cleanup finalizer and a
non-orphan deletion policy, the cleanup never blocks on delete failures: the
loop body drops the bundle's status entry and removes the finalizer whatever
the dynamic client answers, and deleteSyncSetResources returns no error
whenever the recorded apiVersions parse (delete failures, NotFound or not,
are only logged and no DeletionFailed condition is recorded anywhere). -/
theorem C10_cleanup_never_blocked (env : ReconcileEnv) (b : SyncSetObj)
    (statusList : List SyncSetObjectStatus)
    (hdel : b.hasDeletionTimestamp = true)
    (hfin : HasFinalizer b.finalizers finalizerSyncSetCleanup = true)
    (hpol : b.resourceDeletionPolicy ≠ .orphan) :
    processSyncSet env b statusList =
      (removeSyncSetObjectStatus statusList b.name,
       { StepLog.empty with
          deletes := (deleteSyncSetResources env.dyn
            (findSyncSetStatus b.name statusList).resources).1,
          bundleUpdates := [b.name], removedFin := true }) ∧
    (∀ rs : List SyncStatus, (∀ r ∈ rs, (parseGroupVersion r.apiVersion).isSome = true) →
       (deleteSyncSetResources env.dyn rs).2 = none) := by
  constructor
  · have hpolb : (b.resourceDeletionPolicy != ResourceDeletionPolicy.orphan) = true := by
      simpa [bne_iff_ne] using hpol
    simp only [processSyncSet, hdel, hfin, Bool.and_self, if_pos, hpolb, if_true]
  · intro rs h
    exact deleteSyncSetResources_err env.dyn rs h

/-- C10 witness: the deleting fixture bundle, against a cluster whose deletes
all fail, still has its status entry dropped and its finalizer removed. -/
theorem C10_cleanup_never_blocked_witness :
    processSyncSet { baseEnv with dyn := failDyn } cexDeletingBundle
        [{ name := "b", resources := [cexStatusB], patches := [], conditions := [] }] =
      ([],
       { StepLog.empty with
          deletes := [deleteCallOf cexStatusB], bundleUpdates := ["b"],
          removedFin := true }) := by
  have h := (C10_cleanup_never_blocked { baseEnv with dyn := failDyn } cexDeletingBundle
    [{ name := "b", resources := [cexStatusB], patches := [], conditions := [] }]
    rfl (by decide) (by decide)).1
  rw [h]
  decide

/-! Reapply-decision lemmas. -/

theorem resourceShouldApply_eq_spec (now : Int) (prior : List SyncStatus)
    (cand : SyncStatus) :
    resourceShouldApply now (prior.find? (fun rss => matchesStatus rss cand)) cand.hash =
      specResourceReapply now prior cand := by
  unfold resourceShouldApply specResourceReapply
  rcases prior.find? (fun rss => matchesStatus rss cand) with _ | m
  · rfl
  · rcases hh : m.hash != cand.hash with _ | _
    · rcases hf : condIsTrue m.conditions .applyFailure with _ | _
      · simp [hh, hf]
      · simp [hh, hf]
    · simp [hh]

theorem patchShouldApply_eq_spec (now : Int) (applyMode : SyncSetPatchApplyMode)
    (patches : List SyncStatus) (cand : SyncStatus) :
    patchShouldApply now applyMode
        (patches.find? (fun pss => matchesPatchStatus pss cand)) cand.hash =
      specPatchReapply now applyMode patches cand := by
  unfold patchShouldApply specPatchReapply
  rcases patches.find? (fun pss => matchesPatchStatus pss cand) with _ | m
  · rfl
  · rcases hh : m.hash != cand.hash with _ | _
    · rcases hf : condIsTrue m.conditions .applyFailure with _ | _
      · rcases hm : applyMode != .applyOnce with _ | _
        · simp [hh, hf, hm]
        · simp [hh, hf, hm]
      · simp [hh, hf]
    · simp [hh]

/-- C1 (amended): over a bundle's resources, Apply is invoked for exactly the
resources whose four-disjunct reapply predicate holds, in declaration order,
up to and including the first resource whose apply fails — resources after
the first apply error are not applied even when their predicate holds.  In
particular a resource whose bytes match the recorded hash, whose last apply
succeeded within the 2 hour interval and which carries no failure condition
is never applied. -/
theorem C1_resources_applied_iff_reapply (r : ReconcileSyncSet) (ap : Applier)
    (dyn : DynamicClient) (now : Int) (applyMode : SyncSetResourceApplyMode)
    (ssResources : List String) (s : SyncSetObjectStatus) (infos : List Info)
    (hinfo : gatherInfos ap 0 ssResources = .ok infos) :
    (applySyncSetResources r ap dyn now applyMode ssResources s).applied =
      specAppliedResources r ap now s.resources (ssResources.zip infos) := by
  have hloop : ∀ (L : List (String × Info)) (prior : List SyncStatus),
      (applyResourcesLoop r ap now prior L).2.1 = specAppliedResources r ap now prior L := by
    intro L
    induction L with
    | nil => intro prior; rfl
    | cons hd rest ih =>
      intro prior
      rcases hd with ⟨raw, inf⟩
      rw [applyResourcesLoop, specAppliedResources]
      rw [show (resourceCandidate r raw inf).hash = (resourceCandidate r raw inf).hash from rfl]
      rw [← resourceShouldApply_eq_spec now prior (resourceCandidate r raw inf)]
      rcases hsa : resourceShouldApply now
          (prior.find? (fun rss => matchesStatus rss (resourceCandidate r raw inf)))
          (resourceCandidate r raw inf).hash with _ | _
      · simp only [hsa, Bool.false_eq_true, if_neg, not_false_iff, if_false]
        rcases hrec : applyResourcesLoop r ap now prior rest with ⟨l, a, er⟩
        have := ih prior
        rw [hrec] at this
        simpa using this
      · simp only [hsa, if_pos, if_true]
        rcases he : ap.applyFailed raw with _ | _
        · simp only [he, Bool.false_eq_true, if_neg, not_false_iff, if_false]
          rcases hrec : applyResourcesLoop r ap now prior rest with ⟨l, a, er⟩
          have := ih prior
          rw [hrec] at this
          simpa using this
        · simp [he]
  unfold applySyncSetResources
  rw [hinfo]
  simp only
  rcases hrec : applyResourcesLoop r ap now s.resources (ssResources.zip infos)
    with ⟨l, a, er⟩
  have hl := hloop (ssResources.zip infos) s.resources
  rw [hrec] at hl
  simp only at hl
  rcases hdel : reconcileDeletedSyncSetResources now dyn applyMode s.resources l er
    with ⟨rl, dl, de⟩
  simp only [hrec, hdel]
  exact hl

/-- C1 counterexample: with an empty prior status both resources satisfy the
claim's reapply predicate, yet after the first resource's apply fails the
second is not applied — the claim's unconditional "if and only if" fails. -/
theorem C1_counterexample_second_resource_skipped :
    (applySyncSetResources idHashReconciler failR1Applier okDyn 0 .upsert ["r1", "r2"]
        { name := "b", resources := [], patches := [], conditions := [] }).applied =
      ["r1"] ∧
    specResourceReapply 0 []
      (resourceCandidate idHashReconciler "r2"
        { apiVersion := "v1", kind := "ConfigMap", resource := "configmaps",
          name := "r2", namespc := "ns" }) = true := by
  constructor
  · decide
  · rfl

/-- C1 witness: with an always-succeeding applier and one changed resource,
the applied sequence is exactly the spec sequence. -/
theorem C1_resources_applied_witness :
    (applySyncSetResources idHashReconciler okApplier okDyn 0 .upsert ["r1"]
        { name := "b", resources := [], patches := [], conditions := [] }).applied =
      specAppliedResources idHashReconciler okApplier 0 []
        (["r1"].zip [{ apiVersion := "v1", kind := "ConfigMap", resource := "configmaps",
                       name := "r1", namespc := "ns" }]) := by
  exact C1_resources_applied_iff_reapply idHashReconciler okApplier okDyn 0 .upsert
    ["r1"] { name := "b", resources := [], patches := [], conditions := [] }
    [{ apiVersion := "v1", kind := "ConfigMap", resource := "configmaps",
       name := "r1", namespc := "ns" }] rfl

/-- C4: the Patch calls of a bundle's patch loop are exactly the spec
sequence: each patch is matched against the prior patch statuses by
(name, namespace, kind) — the match function ignores apiVersion — and is
invoked precisely when not found, or the body hash differs, or ApplyFailure
is True, or (the apply mode is not ApplyOnce and ApplySuccess is stale);
the first patch error ends the loop and is what the bundle call returns. -/
theorem C4_patch_reapply_decision (r : ReconcileSyncSet) (ap : Applier) (now : Int) :
    (∀ (ps : List SyncObjectPatch) (patches : List SyncStatus),
       (applyPatchesLoop r ap now ps patches).2.1 = specPatchCalls r ap now ps patches) ∧
    (∀ (ps : List SyncObjectPatch) (patches : List SyncStatus),
       (applyPatchesLoop r ap now ps patches).2.2 =
         (applyPatchesLoop r ap now ps patches).2.1.any ap.patchFailed) ∧
    (∀ (ps : List SyncObjectPatch) (s : SyncSetObjectStatus),
       (applySyncSetPatches r ap now ps s).2.2 =
         if (applyPatchesLoop r ap now ps s.patches).2.2 then some "patch error" else none) ∧
    (∀ (m cand : SyncStatus) (v : String),
       matchesPatchStatus { m with apiVersion := v } cand = matchesPatchStatus m cand) := by
  have hcalls : ∀ (ps : List SyncObjectPatch) (patches : List SyncStatus),
      (applyPatchesLoop r ap now ps patches).2.1 = specPatchCalls r ap now ps patches := by
    intro ps
    induction ps with
    | nil => intro patches; rfl
    | cons p rest ih =>
      intro patches
      rw [applyPatchesLoop, specPatchCalls]
      rw [← patchShouldApply_eq_spec now p.applyMode patches (patchCandidate r p)]
      rcases hsa : patchShouldApply now p.applyMode
          (patches.find? (fun pss => matchesPatchStatus pss (patchCandidate r p)))
          (patchCandidate r p).hash with _ | _
      · simp only [hsa, Bool.false_eq_true, if_neg, not_false_iff, if_false]
        exact ih patches
      · simp only [hsa, if_pos, if_true]
        rcases he : ap.patchFailed (patchCallOf p) with _ | _
        · simp only [he, Bool.false_eq_true, if_neg, not_false_iff, if_false]
          rcases hrec : applyPatchesLoop r ap now rest
              (appendOrUpdateSyncStatus patches
                { patchCandidate r p with
                   conditions := setApplySyncConditions now
                     (match patches.find?
                         (fun pss => matchesPatchStatus pss (patchCandidate r p)) with
                      | some m => m.conditions
                      | none => []) false }) with ⟨l, a, er⟩
          have := ih (appendOrUpdateSyncStatus patches
            { patchCandidate r p with
               conditions := setApplySyncConditions now
                 (match patches.find?
                     (fun pss => matchesPatchStatus pss (patchCandidate r p)) with
                  | some m => m.conditions
                  | none => []) false })
          rw [hrec] at this
          simpa using this
        · simp [he]
  have herr : ∀ (ps : List SyncObjectPatch) (patches : List SyncStatus),
      (applyPatchesLoop r ap now ps patches).2.2 =
        (applyPatchesLoop r ap now ps patches).2.1.any ap.patchFailed := by
    intro ps
    induction ps with
    | nil => intro patches; rfl
    | cons p rest ih =>
      intro patches
      rw [applyPatchesLoop]
      rcases hsa : patchShouldApply now p.applyMode
          (patches.find? (fun pss => matchesPatchStatus pss (patchCandidate r p)))
          (patchCandidate r p).hash with _ | _
      · simp only [hsa, Bool.false_eq_true, if_neg, not_false_iff, if_false]
        exact ih patches
      · simp only [hsa, if_pos, if_true]
        rcases he : ap.patchFailed (patchCallOf p) with _ | _
        · simp only [he, Bool.false_eq_true, if_neg, not_false_iff, if_false]
          rcases hrec : applyPatchesLoop r ap now rest
              (appendOrUpdateSyncStatus patches
                { patchCandidate r p with
                   conditions := setApplySyncConditions now
                     (match patches.find?
                         (fun pss => matchesPatchStatus pss (patchCandidate r p)) with
                      | some m => m.conditions
                      | none => []) false }) with ⟨l, a, er⟩
          have := ih (appendOrUpdateSyncStatus patches
            { patchCandidate r p with
               conditions := setApplySyncConditions now
                 (match patches.find?
                     (fun pss => matchesPatchStatus pss (patchCandidate r p)) with
                  | some m => m.conditions
                  | none => []) false })
          rw [hrec] at this
          simp only at this
          simp [this, he]
        · simp [he]
  refine ⟨hcalls, herr, ?_, ?_⟩
  · intro ps s
    unfold applySyncSetPatches
    rcases hrec : applyPatchesLoop r ap now ps s.patches with ⟨l, a, er⟩
    rcases er with _ | _ <;> simp
  · intro m cand v
    rfl

/-- C5: at the failing input — a deleting SelectorSyncSet whose recorded
entry sits in SelectorSyncSetStatus, where the apply path records it — the
cleanup branch issues no deletes and leaves the SelectorSyncSetStatus entry
in place (it reads and prunes SyncSetStatus instead), while the same entry
placed in SyncSetStatus is what actually gets deleted and dropped. -/
theorem C5_selector_cleanup_reads_wrong_list :
    (processSelectorSyncSet baseEnv cexDeletingBundle cexSelectorCD).1 = cexSelectorCD ∧
    (processSelectorSyncSet baseEnv cexDeletingBundle cexSelectorCD).2.deletes = [] ∧
    (processSelectorSyncSet baseEnv cexDeletingBundle cexSelectorCD).2.removedFin = true ∧
    (processSelectorSyncSet baseEnv cexDeletingBundle cexSwappedCD).2.deletes =
      [deleteCallOf cexStatusB] ∧
    (processSelectorSyncSet baseEnv cexDeletingBundle cexSwappedCD).1.syncSetStatus = [] := by
  refine ⟨?_, ?_, ?_, ?_, ?_⟩ <;> decide

/-! Lemmas toward the two-consecutive-reconciles theorem. -/

theorem find?_eq_of_unique {α : Type} (p : α → Bool) (l : List α) (t : α)
    (hmem : t ∈ l) (hpt : p t = true) (huniq : ∀ m ∈ l, p m = true → m = t) :
    l.find? p = some t := by
  induction l with
  | nil => simp at hmem
  | cons a rest ih =>
    rcases ha : p a with _ | _
    · have hat : t ∈ rest := by
        rcases List.mem_cons.mp hmem with h | h
        · exfalso
          subst h
          rw [ha] at hpt
          exact Bool.false_ne_true hpt
        · exact h
      rw [List.find?]
      rw [ha]
      exact ih hat (fun m hm hp => huniq m (List.mem_cons_of_mem a hm) hp)
    · rw [List.find?]
      rw [ha]
      rw [huniq a (List.mem_cons_self a rest) ha]

theorem matchesStatus_iff_key (a b : SyncStatus) :
    matchesStatus a b = true ↔ statusKey a = statusKey b := by
  simp only [matchesStatus, statusKey, Bool.and_eq_true, beq_iff_eq, Prod.mk.injEq]
  constructor
  · rintro ⟨⟨⟨h1, h2⟩, h3⟩, h4⟩
    exact ⟨h3, h4, h2, h1⟩
  · rintro ⟨h1, h2, h3, h4⟩
    exact ⟨⟨⟨h4, h3⟩, h1⟩, h2⟩

theorem matchesStatus_self (a : SyncStatus) : matchesStatus a a = true := by
  simp [matchesStatus]

theorem matchesPatchStatus_iff_key (a b : SyncStatus) :
    matchesPatchStatus a b = true ↔ patchKey a = patchKey b := by
  simp only [matchesPatchStatus, patchKey, Bool.and_eq_true, beq_iff_eq, Prod.mk.injEq]
  constructor
  · rintro ⟨⟨h1, h2⟩, h3⟩
    exact ⟨h1, h2, h3⟩
  · rintro ⟨h1, h2, h3⟩
    exact ⟨⟨h1, h2⟩, h3⟩

theorem statusKey_baseOf (m : SyncStatus) : statusKey (baseOf m) = statusKey m := rfl

theorem patchKey_baseOf (m : SyncStatus) : patchKey (baseOf m) = patchKey m := rfl

theorem baseOf_reconstruct (m c : SyncStatus) (h : baseOf m = c) :
    m = { c with conditions := m.conditions } := by
  rcases m with ⟨a1, a2, a3, a4, a5, a6, a7⟩
  simp only [baseOf] at h
  rw [← h]

theorem gatherInfos_ok (ap : Applier)
    (h_info : ∀ raw, ap.info raw = .ok (infoOf ap raw)) :
    ∀ (i : Nat) (raws : List String),
      gatherInfos ap i raws = .ok (raws.map (infoOf ap)) := by
  intro i raws
  induction raws generalizing i with
  | nil => rfl
  | cons raw rest ih =>
    rw [gatherInfos, h_info raw, ih (i + 1)]
    rfl

theorem applyResourcesLoop_no_error (r : ReconcileSyncSet) (ap : Applier) (now : Int)
    (h_ap : ∀ raw, ap.applyFailed raw = false) :
    ∀ (L : List (String × Info)) (prior : List SyncStatus),
      (applyResourcesLoop r ap now prior L).2.2 = false := by
  intro L
  induction L with
  | nil => intro prior; rfl
  | cons hd rest ih =>
    intro prior
    rcases hd with ⟨raw, inf⟩
    rw [applyResourcesLoop]
    rcases hsa : resourceShouldApply now
        (prior.find? (fun rss => matchesStatus rss (resourceCandidate r raw inf)))
        (resourceCandidate r raw inf).hash with _ | _
    · simp only [hsa, Bool.false_eq_true, if_neg, not_false_iff, if_false]
      rcases hrec : applyResourcesLoop r ap now prior rest with ⟨l, a, er⟩
      have := ih prior
      rw [hrec] at this
      simpa using this
    · simp only [hsa, if_pos, if_true, h_ap raw, Bool.false_eq_true, if_neg,
        not_false_iff, if_false]
      rcases hrec : applyResourcesLoop r ap now prior rest with ⟨l, a, er⟩
      have := ih prior
      rw [hrec] at this
      simpa using this

theorem applyResourcesLoop_base (r : ReconcileSyncSet) (ap : Applier) (now : Int)
    (h_ap : ∀ raw, ap.applyFailed raw = false) :
    ∀ (L : List (String × Info)) (prior : List SyncStatus),
      (applyResourcesLoop r ap now prior L).1.map baseOf =
        L.map (fun pr => resourceCandidate r pr.1 pr.2) := by
  intro L
  induction L with
  | nil => intro prior; rfl
  | cons hd rest ih =>
    intro prior
    rcases hd with ⟨raw, inf⟩
    rw [applyResourcesLoop]
    have hbase : ∀ cs : List SyncCondition,
        baseOf { resourceCandidate r raw inf with conditions := cs } =
          resourceCandidate r raw inf := by
      intro cs
      rfl
    rcases hsa : resourceShouldApply now
        (prior.find? (fun rss => matchesStatus rss (resourceCandidate r raw inf)))
        (resourceCandidate r raw inf).hash with _ | _
    · simp only [hsa, Bool.false_eq_true, if_neg, not_false_iff, if_false]
      rcases hrec : applyResourcesLoop r ap now prior rest with ⟨l, a, er⟩
      have := ih prior
      rw [hrec] at this
      simp only at this
      simp only [List.map_cons, hbase]
      rw [this]
    · simp only [hsa, if_pos, if_true, h_ap raw, Bool.false_eq_true, if_neg,
        not_false_iff, if_false]
      rcases hrec : applyResourcesLoop r ap now prior rest with ⟨l, a, er⟩
      have := ih prior
      rw [hrec] at this
      simp only at this
      simp only [List.map_cons, hbase]
      rw [this]

theorem deletionCandidates_self (l : List SyncStatus) : deletionCandidates l l = [] := by
  rw [deletionCandidates, List.filter_eq_nil_iff]
  intro m hm
  have hany : (l.any fun n => matchesStatus m n) = true :=
    List.any_eq_true.mpr ⟨m, hm, matchesStatus_self m⟩
  simp [hany]

theorem reconcileDeleted_noop (now : Int) (dyn : DynamicClient)
    (applyMode : SyncSetResourceApplyMode) (l : List SyncStatus) :
    reconcileDeletedSyncSetResources now dyn applyMode l l false = (l, [], none) := by
  rcases applyMode with _ | _ | _
  · rfl
  · rfl
  · simp only [reconcileDeletedSyncSetResources]
    rw [deletionCandidates_self]
    rfl

theorem resourceShouldApply_false (now2 : Int) (m : SyncStatus) (h : String)
    (hh : m.hash = h)
    (hok : condIsTrue m.conditions .applyFailure = false)
    (hfresh : successFresh now2 m = true) :
    resourceShouldApply now2 (some m) h = false := by
  unfold resourceShouldApply
  have hbne : (m.hash != h) = false := by simp [bne, hh]
  simp only [hbne, Bool.false_eq_true, if_neg, not_false_iff, if_false, hok]
  rcases hf : FindSyncCondition m.conditions .applySuccess with _ | sc
  · rfl
  · unfold successFresh at hfresh
    rw [hf] at hfresh
    simp only [decide_eq_true_eq] at hfresh
    simp only [decide_eq_false_iff_not]
    omega

theorem patchShouldApply_false (now2 : Int) (mode : SyncSetPatchApplyMode)
    (m : SyncStatus) (h : String)
    (hh : m.hash = h)
    (hok : condIsTrue m.conditions .applyFailure = false)
    (hfresh : successFresh now2 m = true) :
    patchShouldApply now2 mode (some m) h = false := by
  unfold patchShouldApply
  have hbne : (m.hash != h) = false := by simp [bne, hh]
  simp only [hbne, Bool.false_eq_true, if_neg, not_false_iff, if_false, hok]
  rcases hm : mode != .applyOnce with _ | _
  · simp
  · simp only [if_pos, if_true]
    rcases hf : FindSyncCondition m.conditions .applySuccess with _ | sc
    · rfl
    · unfold successFresh at hfresh
      rw [hf] at hfresh
      simp only [decide_eq_true_eq] at hfresh
      simp only [decide_eq_false_iff_not]
      omega

theorem applyResourcesLoop_noop (r : ReconcileSyncSet) (ap : Applier) (now2 : Int)
    (l : List SyncStatus)
    (hkeys : (l.map statusKey).Nodup)
    (hok : ∀ m ∈ l, condIsTrue m.conditions .applyFailure = false)
    (hfresh : ∀ m ∈ l, successFresh now2 m = true) :
    ∀ (raws : List String) (l' : List SyncStatus), l' ⊆ l →
      l'.map baseOf = raws.map (fun raw => resourceCandidate r raw (infoOf ap raw)) →
      applyResourcesLoop r ap now2 l (raws.zip (raws.map (infoOf ap))) = (l', [], false) := by
  intro raws
  induction raws with
  | nil =>
    intro l' _ hmap
    have : l' = [] := List.map_eq_nil_iff.mp hmap
    subst this
    rfl
  | cons raw rest ih =>
    intro l' hsub hmap
    rcases l' with _ | ⟨m, lrest⟩
    · simp at hmap
    · simp only [List.map_cons, List.cons.injEq] at hmap
      obtain ⟨hm, hrest⟩ := hmap
      have hmem : m ∈ l := hsub (List.mem_cons_self m lrest)
      have hfind : l.find?
          (fun rss => matchesStatus rss (resourceCandidate r raw (infoOf ap raw))) =
            some m := by
        apply find?_eq_of_unique _ _ m hmem
        · rw [matchesStatus_iff_key, ← hm, statusKey_baseOf]
        · intro m1 hm1 hp
          rw [matchesStatus_iff_key] at hp
          have hkey : statusKey m1 = statusKey m := by
            rw [hp, ← hm, statusKey_baseOf]
          exact List.inj_on_of_nodup_map hkeys hm1 hmem hkey
      have hhash : m.hash = (resourceCandidate r raw (infoOf ap raw)).hash := by
        have : (baseOf m).hash = (resourceCandidate r raw (infoOf ap raw)).hash := by
          rw [hm]
        simpa [baseOf] using this
      rw [List.map_cons, List.zip_cons_cons, applyResourcesLoop]
      rw [hfind]
      rw [resourceShouldApply_false now2 m _ hhash (hok m hmem) (hfresh m hmem)]
      simp only [Bool.false_eq_true, if_neg, not_false_iff, if_false]
      rcases hrec : applyResourcesLoop r ap now2 l (rest.zip (rest.map (infoOf ap)))
        with ⟨l2, a2, er2⟩
      have := ih lrest (fun x hx => hsub (List.mem_cons_of_mem m hx)) hrest
      rw [hrec] at this
      rw [Prod.mk.injEq] at this
      obtain ⟨h1, h2⟩ := this
      rw [Prod.mk.injEq] at h2
      obtain ⟨h2, h3⟩ := h2
      subst h1
      subst h2
      subst h3
      have hm2 : { resourceCandidate r raw (infoOf ap raw) with conditions := m.conditions } = m :=
        (baseOf_reconstruct m _ hm).symm
      rw [hm2]

theorem appendOrUpdateSyncStatus_cons (s : SyncStatus) (rest : List SyncStatus)
    (v : SyncStatus) :
    appendOrUpdateSyncStatus (s :: rest) v =
      if matchesPatchStatus s v then v :: rest
      else s :: appendOrUpdateSyncStatus rest v := rfl

theorem findPatch_cons (a : SyncStatus) (l : List SyncStatus) (c : SyncStatus) :
    (a :: l).find? (fun x => matchesPatchStatus x c) =
      if matchesPatchStatus a c then some a
      else l.find? (fun x => matchesPatchStatus x c) := by
  simp only [List.find?]
  rcases h : matchesPatchStatus a c with _ | _ <;> simp [h]

theorem find_appendOrUpdate_self (l : List SyncStatus) (v c : SyncStatus)
    (hkey : patchKey v = patchKey c) :
    (appendOrUpdateSyncStatus l v).find? (fun x => matchesPatchStatus x c) = some v := by
  have hvc : matchesPatchStatus v c = true := (matchesPatchStatus_iff_key v c).mpr hkey
  induction l with
  | nil =>
    rw [appendOrUpdateSyncStatus, findPatch_cons, hvc]
    rfl
  | cons s rest ih =>
    rw [appendOrUpdateSyncStatus_cons]
    rcases hms : matchesPatchStatus s v with _ | _
    · have hsc : matchesPatchStatus s c = false := by
        rcases h2 : matchesPatchStatus s c with _ | _
        · rfl
        · exfalso
          have hk2 := (matchesPatchStatus_iff_key s c).mp h2
          rw [← hkey] at hk2
          have h3 := (matchesPatchStatus_iff_key s v).mpr hk2
          rw [h3] at hms
          exact Bool.noConfusion hms
      simp only [Bool.false_eq_true, if_neg, not_false_iff, if_false]
      rw [findPatch_cons, hsc]
      simpa using ih
    · simp only [if_pos, if_true]
      rw [findPatch_cons, hvc]
      rfl

theorem find_appendOrUpdate_other (l : List SyncStatus) (v c : SyncStatus)
    (hkey : patchKey v ≠ patchKey c) :
    (appendOrUpdateSyncStatus l v).find? (fun x => matchesPatchStatus x c) =
      l.find? (fun x => matchesPatchStatus x c) := by
  have hvc : matchesPatchStatus v c = false := by
    rcases h2 : matchesPatchStatus v c with _ | _
    · rfl
    · exact absurd ((matchesPatchStatus_iff_key v c).mp h2) hkey
  induction l with
  | nil =>
    rw [appendOrUpdateSyncStatus, findPatch_cons, hvc]
    simp
  | cons s rest ih =>
    rw [appendOrUpdateSyncStatus_cons]
    rcases hms : matchesPatchStatus s v with _ | _
    · simp only [Bool.false_eq_true, if_neg, not_false_iff, if_false]
      rw [findPatch_cons, findPatch_cons]
      rcases hsc : matchesPatchStatus s c with _ | _
      · simpa using ih
      · rfl
    · simp only [if_pos, if_true]
      have hsv := (matchesPatchStatus_iff_key s v).mp hms
      have hsc : matchesPatchStatus s c = false := by
        rcases h2 : matchesPatchStatus s c with _ | _
        · rfl
        · exfalso
          apply hkey
          rw [← hsv]
          exact (matchesPatchStatus_iff_key s c).mp h2
      rw [findPatch_cons, hvc, findPatch_cons, hsc]
      simp

theorem patchKey_candidate_conds (cand : SyncStatus) (cs : List SyncCondition) :
    patchKey { cand with conditions := cs } = patchKey cand := rfl

theorem patchLoop_find_preserved (r : ReconcileSyncSet) (ap : Applier) (now : Int) :
    ∀ (ps : List SyncObjectPatch) (patches : List SyncStatus) (c : SyncStatus),
      (∀ p ∈ ps, patchKey (patchCandidate r p) ≠ patchKey c) →
      ((applyPatchesLoop r ap now ps patches).1).find? (fun x => matchesPatchStatus x c) =
        patches.find? (fun x => matchesPatchStatus x c) := by
  intro ps
  induction ps with
  | nil => intro patches c _; rfl
  | cons p rest ih =>
    intro patches c hk
    rw [applyPatchesLoop]
    rcases hsa : patchShouldApply now p.applyMode
        (patches.find? (fun pss => matchesPatchStatus pss (patchCandidate r p)))
        (patchCandidate r p).hash with _ | _
    · simp only [hsa, Bool.false_eq_true, if_neg, not_false_iff, if_false]
      exact ih patches c (fun q hq => hk q (List.mem_cons_of_mem p hq))
    · simp only [hsa, if_pos, if_true]
      have hkp := hk p (List.mem_cons_self p rest)
      rcases he : ap.patchFailed (patchCallOf p) with _ | _
      · simp only [he, Bool.false_eq_true, if_neg, not_false_iff, if_false]
        rw [ih _ c (fun q hq => hk q (List.mem_cons_of_mem p hq))]
        exact find_appendOrUpdate_other _ _ c hkp
      · simp only [he, if_pos, if_true]
        exact find_appendOrUpdate_other _ _ c hkp

theorem patchLoop_pass1_find (r : ReconcileSyncSet) (ap : Applier) (now : Int)
    (h_patch : ∀ pc, ap.patchFailed pc = false) :
    ∀ (ps : List SyncObjectPatch) (patches : List SyncStatus),
      (ps.map (fun p => patchKey (patchCandidate r p))).Nodup →
      ∀ p ∈ ps, ∃ m,
        ((applyPatchesLoop r ap now ps patches).1).find?
            (fun x => matchesPatchStatus x (patchCandidate r p)) = some m ∧
          m.hash = r.hash p.patch := by
  intro ps
  induction ps with
  | nil => intro patches _ p hp; simp at hp
  | cons q rest ih =>
    intro patches hnd p hp
    rw [List.map_cons, List.nodup_cons] at hnd
    obtain ⟨hqnot, hndrest⟩ := hnd
    have hrestkeys : ∀ p' ∈ rest, patchKey (patchCandidate r p') ≠
        patchKey (patchCandidate r q) := by
      intro p' hp' he
      exact hqnot (by
        rw [← he]
        exact List.mem_map_of_mem _ hp')
    rw [applyPatchesLoop]
    rcases hsa : patchShouldApply now q.applyMode
        (patches.find? (fun pss => matchesPatchStatus pss (patchCandidate r q)))
        (patchCandidate r q).hash with _ | _
    · -- not applied: a matching entry with equal hash already exists
      simp only [hsa, Bool.false_eq_true, if_neg, not_false_iff, if_false]
      rcases List.mem_cons.mp hp with hpq | hprest
      · subst hpq
        rcases hfind : patches.find?
            (fun pss => matchesPatchStatus pss (patchCandidate r p)) with _ | m0
        · rw [hfind] at hsa
          simp [patchShouldApply] at hsa
        · have hhash : m0.hash = (patchCandidate r p).hash := by
            rcases h2 : m0.hash == (patchCandidate r p).hash with _ | _
            · exfalso
              rw [hfind] at hsa
              unfold patchShouldApply at hsa
              simp only [bne, h2, Bool.not_false, if_pos, if_true] at hsa
              exact Bool.noConfusion hsa
            · simpa [beq_iff_eq] using h2
          refine ⟨m0, ?_, hhash⟩
          rw [patchLoop_find_preserved r ap now rest patches _ hrestkeys]
          exact hfind
      · exact ih patches hndrest p hprest
    · simp only [hsa, if_pos, if_true, h_patch (patchCallOf q), Bool.false_eq_true,
        if_neg, not_false_iff, if_false]
      rcases List.mem_cons.mp hp with hpq | hprest
      · subst hpq
        rw [patchLoop_find_preserved r ap now rest _ _ hrestkeys]
        exact ⟨_, find_appendOrUpdate_self _ _ _ (patchKey_candidate_conds _ _), rfl⟩
      · exact ih _ hndrest p hprest

theorem applyPatchesLoop_noop (r : ReconcileSyncSet) (ap : Applier) (now2 : Int) :
    ∀ (ps : List SyncObjectPatch) (patches : List SyncStatus),
      (∀ p ∈ ps, ∃ m,
        patches.find? (fun x => matchesPatchStatus x (patchCandidate r p)) = some m ∧
          m.hash = r.hash p.patch ∧ condIsTrue m.conditions .applyFailure = false ∧
          successFresh now2 m = true) →
      applyPatchesLoop r ap now2 ps patches = (patches, [], false) := by
  intro ps
  induction ps with
  | nil => intro patches _; rfl
  | cons p rest ih =>
    intro patches hall
    obtain ⟨m, hfind, hhash, hok, hfresh⟩ := hall p (List.mem_cons_self p rest)
    rw [applyPatchesLoop, hfind]
    rw [patchShouldApply_false now2 p.applyMode m _ (by rw [hhash]; rfl) hok hfresh]
    simp only [Bool.false_eq_true, if_neg, not_false_iff, if_false]
    exact ih patches (fun q hq => hall q (List.mem_cons_of_mem p hq))

theorem zip_map_self {α β γ : Type} (f : α → β) (g : α × β → γ) :
    ∀ l : List α, (l.zip (l.map f)).map g = l.map (fun a => g (a, f a)) := by
  intro l
  induction l with
  | nil => rfl
  | cons a rest ih =>
    rw [List.map_cons, List.zip_cons_cons, List.map_cons, List.map_cons, ih]

theorem reconcileDeleted_pass1 (now : Int) (dyn : DynamicClient)
    (mode : SyncSetResourceApplyMode) (existing newList : List SyncStatus)
    (h_parse : ∀ m ∈ existing, (parseGroupVersion m.apiVersion).isSome = true) :
    ∃ calls, reconcileDeletedSyncSetResources now dyn mode existing newList false =
      (newList, calls, none) := by
  rcases mode with _ | _ | _
  · exact ⟨[], rfl⟩
  · exact ⟨[], rfl⟩
  · have hpc : ∀ d ∈ deletionCandidates existing newList,
        (parseGroupVersion d.apiVersion).isSome = true := by
      intro d hd
      exact h_parse d (List.mem_of_mem_filter hd)
    have hrun := runDeletes_parse_ok now dyn (deletionCandidates existing newList) hpc
    rcases hrec : runDeletes now dyn (deletionCandidates existing newList) with ⟨ds, cs, e⟩
    rw [hrec] at hrun
    simp only at hrun
    rw [Prod.mk.injEq] at hrun
    obtain ⟨hc, he⟩ := hrun
    subst hc
    subst he
    refine ⟨(deletionCandidates existing newList).map deleteCallOf, ?_⟩
    simp only [reconcileDeletedSyncSetResources, hrec]
    rfl

theorem applySyncSetResources_pass1 (r : ReconcileSyncSet) (ap : Applier)
    (dyn : DynamicClient) (now : Int) (mode : SyncSetResourceApplyMode)
    (raws : List String) (s : SyncSetObjectStatus)
    (h_ap : ∀ raw, ap.applyFailed raw = false)
    (h_info : ∀ raw, ap.info raw = .ok (infoOf ap raw))
    (h_parse : ∀ m ∈ s.resources, (parseGroupVersion m.apiVersion).isSome = true) :
    (applySyncSetResources r ap dyn now mode raws s).err = none ∧
    (applySyncSetResources r ap dyn now mode raws s).status.name = s.name ∧
    (applySyncSetResources r ap dyn now mode raws s).status.patches = s.patches ∧
    (applySyncSetResources r ap dyn now mode raws s).status.conditions =
      setUnknownObjectSyncCondition now s.conditions none 0 ∧
    (applySyncSetResources r ap dyn now mode raws s).status.resources.map baseOf =
      raws.map (fun raw => resourceCandidate r raw (infoOf ap raw)) := by
  rcases s with ⟨sn, sres, spat, scond⟩
  have hloopE := applyResourcesLoop_no_error r ap now h_ap
    (raws.zip (raws.map (infoOf ap))) sres
  have hloopB := applyResourcesLoop_base r ap now h_ap
    (raws.zip (raws.map (infoOf ap))) sres
  rcases hrec : applyResourcesLoop r ap now sres (raws.zip (raws.map (infoOf ap)))
    with ⟨nl, app, er⟩
  rw [hrec] at hloopE hloopB
  simp only at hloopE hloopB
  subst hloopE
  obtain ⟨calls, hdel⟩ := reconcileDeleted_pass1 now dyn mode sres nl
    (by intro m hm; exact h_parse m hm)
  simp only [applySyncSetResources, gatherInfos_ok ap h_info, hrec, hdel]
  refine ⟨rfl, trivial, trivial, trivial, ?_⟩
  rw [hloopB, zip_map_self]

theorem applySyncSetResources_noop (r : ReconcileSyncSet) (ap : Applier)
    (dyn : DynamicClient) (now2 : Int) (mode : SyncSetResourceApplyMode)
    (raws : List String) (entry : SyncSetObjectStatus)
    (h_info : ∀ raw, ap.info raw = .ok (infoOf ap raw))
    (hstruct : entry.resources.map baseOf =
      raws.map (fun raw => resourceCandidate r raw (infoOf ap raw)))
    (hkeys : (raws.map (fun raw =>
      statusKey (resourceCandidate r raw (infoOf ap raw)))).Nodup)
    (hok : ∀ m ∈ entry.resources, condIsTrue m.conditions .applyFailure = false)
    (hfresh : ∀ m ∈ entry.resources, successFresh now2 m = true)
    (huo : condStatus entry.conditions .unknownObject = some .cfalse) :
    applySyncSetResources r ap dyn now2 mode raws entry =
      { status := entry, applied := [], deletes := [], err := none } := by
  obtain ⟨c, hfindc, hstc⟩ : ∃ c,
      FindSyncCondition entry.conditions .unknownObject = some c ∧
        c.status = .cfalse := by
    unfold condStatus at huo
    rcases hf : FindSyncCondition entry.conditions .unknownObject with _ | c
    · rw [hf] at huo
      simp at huo
    · rw [hf] at huo
      simp at huo
      exact ⟨c, rfl, huo⟩
  have hset : setUnknownObjectSyncCondition now2 entry.conditions none 0 =
      entry.conditions := by
    unfold setUnknownObjectSyncCondition
    exact set_never_noop now2 entry.conditions _ _ _ _ c hfindc hstc
  have hlkeys : (entry.resources.map statusKey).Nodup := by
    have h1 : entry.resources.map statusKey =
        raws.map (fun raw => statusKey (resourceCandidate r raw (infoOf ap raw))) := by
      have h2 : entry.resources.map statusKey =
          (entry.resources.map baseOf).map statusKey := by
        rw [List.map_map]
        rfl
      rw [h2, hstruct, List.map_map]
      rfl
    rw [h1]
    exact hkeys
  have hloop := applyResourcesLoop_noop r ap now2 entry.resources hlkeys hok hfresh
    raws entry.resources (fun x hx => hx) hstruct
  rcases entry with ⟨en, eres, epat, econd⟩
  simp only at hstruct hok hfresh hset hloop
  simp only [applySyncSetResources, gatherInfos_ok ap h_info, hset, hloop,
    reconcileDeleted_noop]
  rfl

theorem findName_cons (a : SyncSetObjectStatus) (l : List SyncSetObjectStatus)
    (n : String) :
    (a :: l).find? (fun s => n == s.name) =
      if n == a.name then some a else l.find? (fun s => n == s.name) := by
  simp only [List.find?]
  rcases h : n == a.name with _ | _ <;> simp [h]

theorem findSyncSetStatus_name (n : String) (l : List SyncSetObjectStatus) :
    (findSyncSetStatus n l).name = n := by
  unfold findSyncSetStatus
  rcases hf : l.find? (fun ssos => n == ssos.name) with _ | s
  · rw [hf]
  · rw [hf]
    have h2 := List.find?_some hf
    simp only [beq_iff_eq] at h2
    exact h2.symm

theorem findSyncSetStatus_of_find? (n : String) (l : List SyncSetObjectStatus)
    (v : SyncSetObjectStatus) (h : l.find? (fun s => n == s.name) = some v) :
    findSyncSetStatus n l = v := by
  unfold findSyncSetStatus
  rw [h]

theorem aouObj_cons (s : SyncSetObjectStatus) (rest : List SyncSetObjectStatus)
    (v : SyncSetObjectStatus) :
    appendOrUpdateSyncSetObjectStatus (s :: rest) v =
      if s.name == v.name then v :: rest
      else s :: appendOrUpdateSyncSetObjectStatus rest v := rfl

theorem findName_aouObj_self (l : List SyncSetObjectStatus) (v : SyncSetObjectStatus)
    (n : String) (hn : v.name = n) :
    (appendOrUpdateSyncSetObjectStatus l v).find? (fun s => n == s.name) = some v := by
  have hnv : (n == v.name) = true := by simp [beq_iff_eq, hn]
  induction l with
  | nil =>
    rw [appendOrUpdateSyncSetObjectStatus, findName_cons, hnv]
    rfl
  | cons s rest ih =>
    rw [aouObj_cons]
    rcases hsv : s.name == v.name with _ | _
    · have hns : (n == s.name) = false := by
        simp only [beq_eq_false_iff_ne, ne_eq] at hsv ⊢
        intro he
        exact hsv (by rw [← he, hn])
      simp only [Bool.false_eq_true, if_neg, not_false_iff, if_false]
      rw [findName_cons, hns]
      simpa using ih
    · simp only [if_pos, if_true]
      rw [findName_cons, hnv]
      rfl

theorem findName_aouObj_other (l : List SyncSetObjectStatus) (v : SyncSetObjectStatus)
    (n : String) (hn : v.name ≠ n) :
    (appendOrUpdateSyncSetObjectStatus l v).find? (fun s => n == s.name) =
      l.find? (fun s => n == s.name) := by
  have hnv : (n == v.name) = false := by
    simp only [beq_eq_false_iff_ne, ne_eq]
    intro he
    exact hn he.symm
  induction l with
  | nil =>
    rw [appendOrUpdateSyncSetObjectStatus, findName_cons, hnv]
    simp
  | cons s rest ih =>
    rw [aouObj_cons]
    rcases hsv : s.name == v.name with _ | _
    · simp only [Bool.false_eq_true, if_neg, not_false_iff, if_false]
      rw [findName_cons, findName_cons]
      rcases hns : n == s.name with _ | _
      · simpa using ih
      · rfl
    · simp only [if_pos, if_true]
      have hsvn : s.name = v.name := by simpa [beq_iff_eq] using hsv
      have hns : (n == s.name) = false := by
        rw [hsvn]
        exact hnv
      rw [findName_cons, hnv, findName_cons, hns]
      simp

theorem aouObj_id (l : List SyncSetObjectStatus) (v : SyncSetObjectStatus)
    (hfind : l.find? (fun s => v.name == s.name) = some v) :
    appendOrUpdateSyncSetObjectStatus l v = l := by
  induction l with
  | nil => simp [List.find?] at hfind
  | cons s rest ih =>
    rw [findName_cons] at hfind
    rw [aouObj_cons]
    rcases hsv : v.name == s.name with _ | _
    · rw [hsv] at hfind
      simp only [Bool.false_eq_true, if_neg, not_false_iff, if_false] at hfind
      have hsv2 : (s.name == v.name) = false := by
        simp only [beq_eq_false_iff_ne, ne_eq] at hsv ⊢
        exact fun he => hsv he.symm
      rw [hsv2]
      simp only [Bool.false_eq_true, if_neg, not_false_iff, if_false]
      rw [ih hfind]
    · rw [hsv] at hfind
      simp only [if_pos, if_true, Option.some.injEq] at hfind
      have hsv2 : (s.name == v.name) = true := by
        simp only [beq_iff_eq] at hsv ⊢
        exact hsv.symm
      rw [hsv2]
      simp only [if_pos, if_true]
      rw [hfind]

theorem applyBundle_pass1 (env : ReconcileEnv) (b : SyncSetObj)
    (entry : SyncSetObjectStatus)
    (h_ap : ∀ raw, env.ap.applyFailed raw = false)
    (h_patch : ∀ pc, env.ap.patchFailed pc = false)
    (h_info : ∀ raw, env.ap.info raw = .ok (infoOf env.ap raw))
    (h_parse : ∀ m ∈ entry.resources, (parseGroupVersion m.apiVersion).isSome = true)
    (h_pkeys : (b.patches.map (fun p => patchKey (patchCandidate env.r p))).Nodup)
    (hname : entry.name = b.name) :
    EntryProps env.r env.ap b (applyBundle env b entry).1 := by
  obtain ⟨herr, hname2, hpat, hcond, hres⟩ :=
    applySyncSetResources_pass1 env.r env.ap env.dyn env.now b.resourceApplyMode
      b.resources entry h_ap h_info h_parse
  rcases hres0 : applySyncSetResources env.r env.ap env.dyn env.now
      b.resourceApplyMode b.resources entry with ⟨st, appl, dels, err⟩
  rw [hres0] at herr hname2 hpat hcond hres
  simp only at herr hname2 hpat hcond hres
  subst herr
  unfold applyBundle
  rw [hres0]
  simp only [applySyncSetPatches]
  rcases hploop : applyPatchesLoop env.r env.ap env.now b.patches st.patches
    with ⟨pp, pc, pe⟩
  refine ⟨?_, ?_, ?_, ?_⟩
  · simpa using hname2.trans hname
  · simpa using hres
  · simp only
    rw [hcond]
    unfold setUnknownObjectSyncCondition
    exact condStatus_set_self _ _ _ _ _ _ _
  · intro p hp
    have := patchLoop_pass1_find env.r env.ap env.now h_patch b.patches st.patches
      h_pkeys p hp
    rw [hploop] at this
    simpa using this

theorem applyBundle_noop (env : ReconcileEnv) (b : SyncSetObj)
    (entry : SyncSetObjectStatus)
    (h_info : ∀ raw, env.ap.info raw = .ok (infoOf env.ap raw))
    (hprops : EntryProps env.r env.ap b entry)
    (hkeys : (b.resources.map (fun raw =>
      statusKey (resourceCandidate env.r raw (infoOf env.ap raw)))).Nodup)
    (hok : ∀ m ∈ entry.resources ++ entry.patches,
      condIsTrue m.conditions .applyFailure = false)
    (hfresh : ∀ m ∈ entry.resources ++ entry.patches, successFresh env.now m = true) :
    applyBundle env b entry = (entry, StepLog.empty) := by
  obtain ⟨hname, hstruct, huo, hpfind⟩ := hprops
  have hres := applySyncSetResources_noop env.r env.ap env.dyn env.now
    b.resourceApplyMode b.resources entry h_info hstruct hkeys
    (fun m hm => hok m (List.mem_append_left _ hm))
    (fun m hm => hfresh m (List.mem_append_left _ hm)) huo
  have hploop := applyPatchesLoop_noop env.r env.ap env.now b.patches entry.patches
    (by
      intro p hp
      obtain ⟨m, hfind, hhash⟩ := hpfind p hp
      have hmem : m ∈ entry.patches := List.mem_of_find?_eq_some hfind
      exact ⟨m, hfind, hhash, hok m (List.mem_append_right _ hmem),
        hfresh m (List.mem_append_right _ hmem)⟩)
  unfold applyBundle
  rw [hres]
  simp only [applySyncSetPatches]
  rw [hploop]
  simp only
  rcases entry with ⟨en, eres, epat, econd⟩
  rfl

theorem applySyncSetResources_name (r : ReconcileSyncSet) (ap : Applier)
    (dyn : DynamicClient) (now : Int) (mode : SyncSetResourceApplyMode)
    (raws : List String) (s : SyncSetObjectStatus) :
    (applySyncSetResources r ap dyn now mode raws s).status.name = s.name := by
  rcases hg : gatherInfos ap 0 raws with e1 | infos
  · simp [applySyncSetResources, hg]
  · rcases hl : applyResourcesLoop r ap now s.resources (raws.zip infos)
      with ⟨nl, app, er⟩
    rcases hd : reconcileDeletedSyncSetResources now dyn mode s.resources nl er
      with ⟨rl, dl, de⟩
    simp [applySyncSetResources, hg, hl, hd]

theorem applyBundle_name (env : ReconcileEnv) (b : SyncSetObj)
    (e : SyncSetObjectStatus) : (applyBundle env b e).1.name = e.name := by
  unfold applyBundle
  rcases hres : applySyncSetResources env.r env.ap env.dyn env.now
      b.resourceApplyMode b.resources e with ⟨st, appl, dels, err⟩
  have hn : st.name = e.name := by
    have h2 := applySyncSetResources_name env.r env.ap env.dyn env.now
      b.resourceApplyMode b.resources e
    rw [hres] at h2
    simpa using h2
  rcases err with _ | msg
  · rcases hploop : applyPatchesLoop env.r env.ap env.now b.patches st.patches
      with ⟨pp, pc, pe⟩
    simp [applySyncSetPatches, hploop, hn]
  · simpa using hn

theorem processSyncSet_apply_branch (env : ReconcileEnv) (b : SyncSetObj)
    (acc : List SyncSetObjectStatus)
    (hdel : b.hasDeletionTimestamp = false)
    (hfin : HasFinalizer b.finalizers finalizerSyncSetCleanup = true) :
    processSyncSet env b acc =
      (appendOrUpdateSyncSetObjectStatus acc
        (applyBundle env b (findSyncSetStatus b.name acc)).1,
       (applyBundle env b (findSyncSetStatus b.name acc)).2) := by
  unfold processSyncSet
  simp only [hdel, hfin, Bool.false_and, Bool.not_true, Bool.false_eq_true, if_neg,
    not_false_iff, if_false]

theorem processSyncSets_cons (env : ReconcileEnv) (b : SyncSetObj)
    (rest : List SyncSetObj) (acc : List SyncSetObjectStatus) :
    processSyncSets env (b :: rest) acc =
      ((processSyncSets env rest (processSyncSet env b acc).1).1,
       ((processSyncSet env b acc).2).append
         (processSyncSets env rest (processSyncSet env b acc).1).2) := by
  rw [processSyncSets]

theorem processSyncSets_find_preserved (env : ReconcileEnv) :
    ∀ (bs : List SyncSetObj) (acc : List SyncSetObjectStatus) (n : String),
      (∀ b ∈ bs, b.hasDeletionTimestamp = false ∧
        HasFinalizer b.finalizers finalizerSyncSetCleanup = true) →
      (∀ b ∈ bs, b.name ≠ n) →
      ((processSyncSets env bs acc).1).find? (fun s => n == s.name) =
        acc.find? (fun s => n == s.name) := by
  intro bs
  induction bs with
  | nil => intro acc n _ _; rfl
  | cons b rest ih =>
    intro acc n hb hn
    obtain ⟨hdel, hfin⟩ := hb b (List.mem_cons_self b rest)
    rw [processSyncSets_cons]
    simp only
    rw [ih _ n (fun b2 h2 => hb b2 (List.mem_cons_of_mem b h2))
      (fun b2 h2 => hn b2 (List.mem_cons_of_mem b h2))]
    rw [processSyncSet_apply_branch env b acc hdel hfin]
    simp only
    apply findName_aouObj_other
    rw [applyBundle_name, findSyncSetStatus_name]
    exact hn b (List.mem_cons_self b rest)

theorem processSyncSets_pass1_inv (env : ReconcileEnv)
    (h_ap : ∀ raw, env.ap.applyFailed raw = false)
    (h_patch : ∀ pc, env.ap.patchFailed pc = false)
    (h_info : ∀ raw, env.ap.info raw = .ok (infoOf env.ap raw)) :
    ∀ (bs : List SyncSetObj) (acc : List SyncSetObjectStatus),
      (∀ b ∈ bs, BundleHyps env.r env.ap b) →
      (bs.map SyncSetObj.name).Nodup →
      (∀ b ∈ bs, ∀ m ∈ (findSyncSetStatus b.name acc).resources,
        (parseGroupVersion m.apiVersion).isSome = true) →
      ∀ b ∈ bs, ∃ entry,
        ((processSyncSets env bs acc).1).find? (fun s => b.name == s.name) =
          some entry ∧ EntryProps env.r env.ap b entry := by
  intro bs
  induction bs with
  | nil => intro acc _ _ _ b hb; simp at hb
  | cons b0 rest ih =>
    intro acc hb hnd hparse b hbmem
    obtain ⟨hdel, hfin, hkeys, hpkeys⟩ := hb b0 (List.mem_cons_self b0 rest)
    rw [List.map_cons, List.nodup_cons] at hnd
    obtain ⟨hb0notin, hndrest⟩ := hnd
    have hprops0 := applyBundle_pass1 env b0 (findSyncSetStatus b0.name acc)
      h_ap h_patch h_info (hparse b0 (List.mem_cons_self b0 rest)) hpkeys
      (findSyncSetStatus_name b0.name acc)
    have hname0 : (applyBundle env b0 (findSyncSetStatus b0.name acc)).1.name =
        b0.name := by
      rw [applyBundle_name, findSyncSetStatus_name]
    rw [processSyncSets_cons]
    simp only
    rw [processSyncSet_apply_branch env b0 acc hdel hfin]
    simp only
    rcases List.mem_cons.mp hbmem with hbe | hbrest
    · subst hbe
      refine ⟨(applyBundle env b (findSyncSetStatus b.name acc)).1, ?_, hprops0⟩
      rw [processSyncSets_find_preserved env rest _ b.name
        (fun b2 h2 => ⟨(hb b2 (List.mem_cons_of_mem b h2)).1,
          (hb b2 (List.mem_cons_of_mem b h2)).2.1⟩)
        (fun b2 h2 he => hb0notin (by rw [← he]; exact List.mem_map_of_mem _ h2))]
      exact findName_aouObj_self _ _ _ hname0
    · have hfindsame : ∀ b2 ∈ rest,
          findSyncSetStatus b2.name
            (appendOrUpdateSyncSetObjectStatus acc
              (applyBundle env b0 (findSyncSetStatus b0.name acc)).1) =
          findSyncSetStatus b2.name acc := by
        intro b2 h2
        have hne : (applyBundle env b0 (findSyncSetStatus b0.name acc)).1.name ≠
            b2.name := by
          rw [hname0]
          intro he
          exact hb0notin (by rw [he]; exact List.mem_map_of_mem _ h2)
        set v := (applyBundle env b0 (findSyncSetStatus b0.name acc)).1 with hv
        have hfe := findName_aouObj_other acc v b2.name hne
        unfold findSyncSetStatus
        rw [hfe]
      exact ih _ (fun b2 h2 => hb b2 (List.mem_cons_of_mem b0 h2)) hndrest
        (fun b2 h2 => by
          rw [hfindsame b2 h2]
          exact hparse b2 (List.mem_cons_of_mem b0 h2)) b hbrest

theorem StepLog_append_empty : StepLog.empty.append StepLog.empty = StepLog.empty := rfl

theorem processSyncSets_noop (env : ReconcileEnv)
    (h_info : ∀ raw, env.ap.info raw = .ok (infoOf env.ap raw)) :
    ∀ (bs : List SyncSetObj) (L : List SyncSetObjectStatus),
      (∀ b ∈ bs, BundleHyps env.r env.ap b) →
      (∀ b ∈ bs, ∃ entry, L.find? (fun s => b.name == s.name) = some entry ∧
        EntryProps env.r env.ap b entry ∧ CondsSteady env.now entry) →
      processSyncSets env bs L = (L, StepLog.empty) := by
  intro bs
  induction bs with
  | nil => intro L _ _; rfl
  | cons b rest ih =>
    intro L hb hent
    obtain ⟨entry, hfind, hprops, hconds⟩ := hent b (List.mem_cons_self b rest)
    obtain ⟨hdel, hfin, hkeys, hpkeys⟩ := hb b (List.mem_cons_self b rest)
    have hfss : findSyncSetStatus b.name L = entry :=
      findSyncSetStatus_of_find? _ _ _ hfind
    have hnoop := applyBundle_noop env b entry h_info hprops hkeys
      (fun m hm => (hconds m hm).1) (fun m hm => (hconds m hm).2)
    have hstep : processSyncSet env b L = (L, StepLog.empty) := by
      rw [processSyncSet_apply_branch env b L hdel hfin, hfss, hnoop]
      simp only
      rw [aouObj_id]
      rw [hprops.1]
      exact hfind
    rw [processSyncSets_cons, hstep]
    simp only
    rw [ih L (fun b2 h2 => hb b2 (List.mem_cons_of_mem b h2))
      (fun b2 h2 => hent b2 (List.mem_cons_of_mem b h2))]
    rfl

theorem processSelectorSyncSet_bridge (env : ReconcileEnv) (b : SyncSetObj)
    (st : CDStatus)
    (hdel : b.hasDeletionTimestamp = false)
    (hfin : HasFinalizer b.finalizers finalizerSyncSetCleanup = true) :
    processSelectorSyncSet env b st =
      ({ st with selectorSyncSetStatus :=
          (processSyncSet env b st.selectorSyncSetStatus).1 },
       (processSyncSet env b st.selectorSyncSetStatus).2) := by
  rw [processSyncSet_apply_branch env b st.selectorSyncSetStatus hdel hfin]
  unfold processSelectorSyncSet
  simp only [hdel, hfin, Bool.false_and, Bool.not_true, Bool.false_eq_true, if_neg,
    not_false_iff, if_false]

theorem processSelectorSyncSets_bridge (env : ReconcileEnv) :
    ∀ (bs : List SyncSetObj) (st : CDStatus),
      (∀ b ∈ bs, b.hasDeletionTimestamp = false ∧
        HasFinalizer b.finalizers finalizerSyncSetCleanup = true) →
      processSelectorSyncSets env bs st =
        ({ st with selectorSyncSetStatus :=
            (processSyncSets env bs st.selectorSyncSetStatus).1 },
         (processSyncSets env bs st.selectorSyncSetStatus).2) := by
  intro bs
  induction bs with
  | nil => intro st _; rfl
  | cons b rest ih =>
    intro st hb
    obtain ⟨hdel, hfin⟩ := hb b (List.mem_cons_self b rest)
    rw [processSelectorSyncSets, processSelectorSyncSet_bridge env b st hdel hfin]
    simp only
    rw [ih _ (fun b2 hb2 => hb b2 (List.mem_cons_of_mem b hb2))]
    rw [processSyncSets_cons]

theorem migratedBundle_id_of_clean (b : SyncSetObj)
    (h : bundleNeedsMigration b = false) : migratedBundle b = b := by
  have hall : ∀ p ∈ b.patches, migratePatch p = p := by
    intro p hp
    apply migratePatch_none
    have h2 := List.any_eq_false.mp h p hp
    rcases hmt : migratePatchType p.patchType with _ | n
    · rfl
    · exfalso
      rw [hmt] at h2
      simp at h2
  unfold migratedBundle
  have hmap : b.patches.map migratePatch = b.patches := by
    rw [List.map_congr_left hall]
    exact List.map_id b.patches
  rw [hmap]

theorem migrate_id (items : List SyncSetObj)
    (h : ∀ b ∈ items, bundleNeedsMigration b = false) :
    migrateSyncSetPatchTypes (fun _ => false) items = (items, [], none) := by
  rw [migrate_run]
  have h1 : items.filter bundleNeedsMigration = [] := by
    rw [List.filter_eq_nil_iff]
    intro b hb
    simp [h b hb]
  have h2 : items.map migratedBundle = items := by
    have := List.map_congr_left
      (fun b hb => migratedBundle_id_of_clean b (h b hb))
    rw [this]
    exact List.map_id items
  rw [h1, h2]
  rfl

/-- C8: with no external change — the same bundle lists (already migrated,
all carrying the cleanup finalizer, none being deleted, no duplicate names,
resource four-tuples or patch keys), an applier whose Info always parses and
whose Apply and Patch always succeed, and recorded apiVersions that parse —
a first reconcile at `now1` followed by a second at `now2` at which every
recorded apply is still successful (no ApplyFailure=True) and none is older
than the 2 hour reapply interval produces, in the second reconcile, zero
Apply calls, zero Patch calls, an unchanged status, and no status write. -/
theorem C8_second_reconcile_is_noop
    (r : ReconcileSyncSet) (ap : Applier) (dyn : DynamicClient) (now1 now2 : Int)
    (ss sss : List SyncSetObj) (st0 : CDStatus)
    (h_ap : ∀ raw, ap.applyFailed raw = false)
    (h_patch : ∀ pc, ap.patchFailed pc = false)
    (h_info : ∀ raw, ap.info raw = .ok (infoOf ap raw))
    (h_ssh : ∀ b ∈ ss, BundleHyps r ap b)
    (h_sssh : ∀ b ∈ sss, BundleHyps r ap b)
    (h_mig : ∀ b ∈ ss, bundleNeedsMigration b = false)
    (h_migs : ∀ b ∈ sss, bundleNeedsMigration b = false)
    (h_ssnd : (ss.map SyncSetObj.name).Nodup)
    (h_sssnd : (sss.map SyncSetObj.name).Nodup)
    (h_parse1 : ∀ b ∈ ss, ∀ m ∈ (findSyncSetStatus b.name st0.syncSetStatus).resources,
        (parseGroupVersion m.apiVersion).isSome = true)
    (h_parse2 : ∀ b ∈ sss,
        ∀ m ∈ (findSyncSetStatus b.name st0.selectorSyncSetStatus).resources,
        (parseGroupVersion m.apiVersion).isSome = true)
    (h_steady : ∀ e ∈
        (reconcileSyncSetsModel { r := r, ap := ap, dyn := dyn, now := now1 }
            (fun _ => false) ss sss st0).1.syncSetStatus ++
        (reconcileSyncSetsModel { r := r, ap := ap, dyn := dyn, now := now1 }
            (fun _ => false) ss sss st0).1.selectorSyncSetStatus,
        CondsSteady now2 e) :
    (reconcileSyncSetsModel { r := r, ap := ap, dyn := dyn, now := now2 }
        (fun _ => false) ss sss
        (reconcileSyncSetsModel { r := r, ap := ap, dyn := dyn, now := now1 }
            (fun _ => false) ss sss st0).1).2.1.applied = [] ∧
    (reconcileSyncSetsModel { r := r, ap := ap, dyn := dyn, now := now2 }
        (fun _ => false) ss sss
        (reconcileSyncSetsModel { r := r, ap := ap, dyn := dyn, now := now1 }
            (fun _ => false) ss sss st0).1).2.1.patched = [] ∧
    (reconcileSyncSetsModel { r := r, ap := ap, dyn := dyn, now := now2 }
        (fun _ => false) ss sss
        (reconcileSyncSetsModel { r := r, ap := ap, dyn := dyn, now := now1 }
            (fun _ => false) ss sss st0).1).1 =
      (reconcileSyncSetsModel { r := r, ap := ap, dyn := dyn, now := now1 }
          (fun _ => false) ss sss st0).1 ∧
    (reconcileSyncSetsModel { r := r, ap := ap, dyn := dyn, now := now2 }
        (fun _ => false) ss sss
        (reconcileSyncSetsModel { r := r, ap := ap, dyn := dyn, now := now1 }
            (fun _ => false) ss sss st0).1).2.2 = false := by
  have hm1 := migrate_id ss h_mig
  have hm2 := migrate_id sss h_migs
  have hdf1 : ∀ b ∈ ss, b.hasDeletionTimestamp = false ∧
      HasFinalizer b.finalizers finalizerSyncSetCleanup = true :=
    fun b hb => ⟨(h_ssh b hb).1, (h_ssh b hb).2.1⟩
  have hdf2 : ∀ b ∈ sss, b.hasDeletionTimestamp = false ∧
      HasFinalizer b.finalizers finalizerSyncSetCleanup = true :=
    fun b hb => ⟨(h_sssh b hb).1, (h_sssh b hb).2.1⟩
  rcases st0 with ⟨inst, sst, ssst⟩
  rcases hp1 : processSyncSets { r := r, ap := ap, dyn := dyn, now := now1 } ss sst
    with ⟨L1, G1⟩
  rcases hp2 : processSyncSets { r := r, ap := ap, dyn := dyn, now := now1 } sss ssst
    with ⟨L1s, G1s⟩
  have hS1 : (reconcileSyncSetsModel { r := r, ap := ap, dyn := dyn, now := now1 }
      (fun _ => false) ss sss ⟨inst, sst, ssst⟩).1 = ⟨inst, L1, L1s⟩ := by
    unfold reconcileSyncSetsModel
    rw [hm1, hm2]
    simp only
    rw [hp1]
    simp only
    rw [processSelectorSyncSets_bridge _ sss _ hdf2]
    simp only
    rw [hp2]
  have hinv1 := processSyncSets_pass1_inv
    { r := r, ap := ap, dyn := dyn, now := now1 } h_ap h_patch h_info ss sst
    h_ssh h_ssnd h_parse1
  rw [hp1] at hinv1
  simp only at hinv1
  have hinv2 := processSyncSets_pass1_inv
    { r := r, ap := ap, dyn := dyn, now := now1 } h_ap h_patch h_info sss ssst
    h_sssh h_sssnd h_parse2
  rw [hp2] at hinv2
  simp only at hinv2
  rw [hS1] at h_steady
  simp only at h_steady
  have hnoop1 : processSyncSets { r := r, ap := ap, dyn := dyn, now := now2 } ss L1 =
      (L1, StepLog.empty) := by
    apply processSyncSets_noop _ h_info ss L1 h_ssh
    intro b hb
    obtain ⟨entry, hfind, hprops⟩ := hinv1 b hb
    refine ⟨entry, hfind, hprops, ?_⟩
    exact h_steady entry
      (List.mem_append_left _ (List.mem_of_find?_eq_some hfind))
  have hnoop2 : processSyncSets { r := r, ap := ap, dyn := dyn, now := now2 } sss L1s =
      (L1s, StepLog.empty) := by
    apply processSyncSets_noop _ h_info sss L1s h_sssh
    intro b hb
    obtain ⟨entry, hfind, hprops⟩ := hinv2 b hb
    refine ⟨entry, hfind, hprops, ?_⟩
    exact h_steady entry
      (List.mem_append_right _ (List.mem_of_find?_eq_some hfind))
  have hfinal : reconcileSyncSetsModel { r := r, ap := ap, dyn := dyn, now := now2 }
      (fun _ => false) ss sss ⟨inst, L1, L1s⟩ =
      (⟨inst, L1, L1s⟩,
       { (StepLog.empty.append StepLog.empty) with
          bundleUpdates := [] ++ [] ++ (StepLog.empty.append StepLog.empty).bundleUpdates },
       false) := by
    unfold reconcileSyncSetsModel
    rw [hm1, hm2]
    simp only
    rw [hnoop1]
    simp only
    rw [processSelectorSyncSets_bridge _ sss _ hdf2]
    simp only
    rw [hnoop2]
    simp only [updateClusterDeploymentStatus]
    simp
  rw [hS1, hfinal]
  refine ⟨rfl, rfl, rfl, rfl⟩

/-- C8 witness: one bundle with one resource against an empty status; the
second reconcile at the same instant applies nothing, patches nothing,
leaves the status identical and issues no status write. -/
theorem C8_second_reconcile_is_noop_witness :
    (reconcileSyncSetsModel { baseEnv with now := 0 } (fun _ => false) [wBundle] []
        (reconcileSyncSetsModel { baseEnv with now := 0 } (fun _ => false) [wBundle] []
            emptyCDStatus).1).2.1.applied = [] ∧
    (reconcileSyncSetsModel { baseEnv with now := 0 } (fun _ => false) [wBundle] []
        (reconcileSyncSetsModel { baseEnv with now := 0 } (fun _ => false) [wBundle] []
            emptyCDStatus).1).2.1.patched = [] ∧
    (reconcileSyncSetsModel { baseEnv with now := 0 } (fun _ => false) [wBundle] []
        (reconcileSyncSetsModel { baseEnv with now := 0 } (fun _ => false) [wBundle] []
            emptyCDStatus).1).1 =
      (reconcileSyncSetsModel { baseEnv with now := 0 } (fun _ => false) [wBundle] []
          emptyCDStatus).1 ∧
    (reconcileSyncSetsModel { baseEnv with now := 0 } (fun _ => false) [wBundle] []
        (reconcileSyncSetsModel { baseEnv with now := 0 } (fun _ => false) [wBundle] []
            emptyCDStatus).1).2.2 = false := by
  exact C8_second_reconcile_is_noop idHashReconciler okApplier okDyn 0 0
    [wBundle] [] emptyCDStatus
    (fun _ => rfl) (fun _ => rfl) (fun _ => rfl)
    (by decide) (by decide) (by decide) (by decide) (by decide) (by decide)
    (by decide) (by decide) (by decide)

end Hive
